import Mathlib

/-!
# Verification of the countdown/travel scheduler (`bot/cogs/countdown.py`)

This file gives a shallow embedding of the timed-event scheduler of the
repository: the duration parser, the interval-boundary wait computation, the
identifier generator, the persistence/recovery path (`_load_existing_countdowns`
together with `json_store.load_json`), the cancellation paths
(`cancel_countdown`, `_cancel_recent_travel`, `_cancel_entry`,
`_cleanup_interval_group`), the travel debounce, and the interval-group
coordination-space state machine (`_ensure_interval_thread`).

Python dictionaries are modelled as insertion-ordered association lists,
Python sets as insertion-ordered duplicate-free lists, wall-clock and
monotonic times as integers, and JSON values as a small `PyVal` universe.
External effects (sending messages, creating threads) are recorded as events
or abstracted into the step relations; they mutate no scheduler state in the
source either.
-/

namespace Celeste

/-! ## Python dictionary / set helpers -/

/-- Lookup in an insertion-ordered association list (Python `dict.get`). -/
def dlookup {κ α : Type} [DecidableEq κ] (k : κ) : List (κ × α) → Option α
  | [] => none
  | (k', v) :: rest => if k' = k then some v else dlookup k rest

/-- Insert/overwrite in an insertion-ordered association list
(Python `d[k] = v`): replace in place when the key exists, else append. -/
def dinsert {κ α : Type} [DecidableEq κ] (k : κ) (v : α) : List (κ × α) → List (κ × α)
  | [] => [(k, v)]
  | (k', v') :: rest => if k' = k then (k, v) :: rest else (k', v') :: dinsert k v rest

/-- Remove a key from an association list (Python `d.pop(k, None)`). -/
def dremove {κ α : Type} [DecidableEq κ] (k : κ) : List (κ × α) → List (κ × α)
  | [] => []
  | (k', v') :: rest => if k' = k then rest else (k', v') :: dremove k rest

/-- Python `set.add`: append if absent. -/
def setAdd {α : Type} [DecidableEq α] (x : α) (l : List α) : List α :=
  if x ∈ l then l else l ++ [x]

theorem dlookup_dinsert_self {κ α : Type} [DecidableEq κ] (k : κ) (v : α)
    (l : List (κ × α)) : dlookup k (dinsert k v l) = some v := by
  induction l with
  | nil => simp [dinsert, dlookup]
  | cons hd tl ih =>
      obtain ⟨k', v'⟩ := hd
      by_cases h : k' = k <;> simp [dinsert, dlookup, h, ih]

theorem dlookup_dinsert_ne {κ α : Type} [DecidableEq κ] (k k' : κ) (v : α)
    (l : List (κ × α)) (h : k' ≠ k) :
    dlookup k (dinsert k' v l) = dlookup k l := by
  induction l with
  | nil => simp [dinsert, dlookup, h]
  | cons hd tl ih =>
      obtain ⟨k₀, v₀⟩ := hd
      by_cases h0 : k₀ = k'
      · subst h0; simp [dinsert, dlookup, h]
      · simp only [dinsert, if_neg h0, dlookup]
        by_cases h1 : k₀ = k <;> simp [h1, ih]

theorem dlookup_eq_none_of_not_mem_keys {κ α : Type} [DecidableEq κ] {k : κ}
    {l : List (κ × α)} (h : k ∉ l.map Prod.fst) : dlookup k l = none := by
  induction l with
  | nil => simp [dlookup]
  | cons hd tl ih =>
      obtain ⟨k', v'⟩ := hd
      simp only [List.map_cons, List.mem_cons] at h
      push_neg at h
      simp only [dlookup, if_neg (Ne.symm h.1)]
      exact ih h.2

theorem not_mem_keys_dremove {κ α : Type} [DecidableEq κ] (k : κ)
    (l : List (κ × α)) (hnd : (l.map Prod.fst).Nodup) :
    k ∉ (dremove k l).map Prod.fst := by
  induction l with
  | nil => simp [dremove]
  | cons hd tl ih =>
      obtain ⟨k', v'⟩ := hd
      simp only [List.map_cons, List.nodup_cons] at hnd
      by_cases h : k' = k
      · subst h
        simpa [dremove] using hnd.1
      · simp only [dremove, if_neg h, List.map_cons, List.mem_cons]
        push_neg
        exact ⟨fun he => h he.symm, ih hnd.2⟩

theorem dlookup_dremove_self {κ α : Type} [DecidableEq κ] (k : κ)
    (l : List (κ × α)) (hnd : (l.map Prod.fst).Nodup) :
    dlookup k (dremove k l) = none :=
  dlookup_eq_none_of_not_mem_keys (not_mem_keys_dremove k l hnd)

/-! ## `_seconds_until_next_interval_boundary` (countdown.py lines 30–46)

```python
if interval_minutes <= 0:
    return 0
interval_seconds = interval_minutes * 60
seconds_today = now.hour * 3600 + now.minute * 60 + now.second
remainder = seconds_today % interval_seconds
if remainder == 0:
    return 0
return interval_seconds - remainder
```
Python `%` with a positive divisor agrees with `Int.emod`. -/

def secondsToday (hour minute second : Nat) : Int :=
  (hour : Int) * 3600 + (minute : Int) * 60 + (second : Int)

def _seconds_until_next_interval_boundary (hour minute second : Nat)
    (interval_minutes : Int) : Int :=
  if interval_minutes ≤ 0 then 0
  else
    let interval_seconds := interval_minutes * 60
    let remainder := secondsToday hour minute second % interval_seconds
    if remainder = 0 then 0 else interval_seconds - remainder

/-! ## `_parse_duration_seconds` (countdown.py lines 49–72)

```python
cleaned = duration.replace(" ", "").lower()
pattern = re.compile(r"(\d+)([hms])")
position = 0; total_seconds = 0
for match in pattern.finditer(cleaned):
    start, end = match.span()
    if start != position: raise ValueError(...)
    ... total_seconds += value * {h: 3600, m: 60, s: 1}[unit]
    position = end
if position != len(cleaned) or total_seconds == 0: raise ValueError(...)
return total_seconds
```

Because each match must begin exactly where the previous one ended and the
matches must cover the whole cleaned string, the loop is equivalent to a
left-to-right parse of maximal digit runs each followed by a unit letter
(a regex match never shrinks a digit run onto a digit, since digits are not
unit letters). `parseTok` performs exactly that parse; the flag says whether
we are inside a digit run (carrying its accumulated decimal value). -/

def MAX_DURATION_SECONDS : Nat := 86400

def unitSeconds (c : Char) : Option Nat :=
  if c = 'h' then some 3600 else if c = 'm' then some 60
  else if c = 's' then some 1 else none

def digitVal (c : Char) : Nat := c.toNat - 48

/-- One pass of the token loop. `false` mode: expecting the start of a token
(or end of input); `true` mode: inside a digit run whose value so far is
`acc`, expecting more digits or a unit letter. -/
def parseTok : Bool → Nat → List Char → Option Nat
  | false, _, [] => some 0
  | false, _, c :: cs =>
      if c.isDigit then parseTok true (digitVal c) cs else none
  | true, _, [] => none
  | true, acc, c :: cs =>
      if c.isDigit then parseTok true (10 * acc + digitVal c) cs
      else
        match unitSeconds c with
        | some w => (parseTok false 0 cs).map (fun t => acc * w + t)
        | none => none

/-- Sum of all `(digits)(unit)` tokens when they tile the whole string. -/
def parseTokens (cs : List Char) : Option Nat := parseTok false 0 cs

/-- `duration.replace(" ", "").lower()`. -/
def durationClean (s : String) : List Char :=
  (s.data.filter (fun c => c ≠ ' ')).map Char.toLower

def _parse_duration_seconds (s : String) : Option Nat :=
  match parseTokens (durationClean s) with
  | none => none
  | some t => if t = 0 then none else some t

/-- The duration validation performed by the `countdown` and `travel`
commands (countdown.py lines 542–560 and 609–627): parse, then reject if
`duration_seconds <= 0 or duration_seconds > MAX_DURATION_SECONDS`. -/
def validateDuration (s : String) : Option Nat :=
  match _parse_duration_seconds s with
  | none => none
  | some d => if d ≤ 0 ∨ MAX_DURATION_SECONDS < d then none else some d

/-- Specification-side grammar, written from the claim's words: the character
sequence is a concatenation of contiguous `(integer)(unit)` tokens, units
restricted to hour/minute/second, covering the entire input with no gaps or
stray characters, and the attached number is the sum of the tokens in
seconds. -/
inductive TokenSum : List Char → Nat → Prop where
  | nil : TokenSum [] 0
  | cons (ds : List Char) (u : Char) (w : Nat) (rest : List Char) (t : Nat) :
      ds ≠ [] → (∀ c ∈ ds, c.isDigit) → unitSeconds u = some w →
      TokenSum rest t →
      TokenSum (ds ++ u :: rest) (ds.foldl (fun a c => 10 * a + digitVal c) 0 * w + t)

theorem unitSeconds_isDigit_false {u : Char} {w : Nat}
    (h : unitSeconds u = some w) : u.isDigit = false := by
  unfold unitSeconds at h
  split_ifs at h with h1 h2 h3
  · subst h1; decide
  · subst h2; decide
  · subst h3; decide

theorem parseTok_run_append (u : Char) (w : Nat) (hu : unitSeconds u = some w) :
    ∀ (ds : List Char), (∀ c ∈ ds, c.isDigit) →
    ∀ (acc : Nat) (rest : List Char),
      parseTok true acc (ds ++ u :: rest) =
        (parseTok false 0 rest).map
          (fun t => ds.foldl (fun a c => 10 * a + digitVal c) acc * w + t) := by
  intro ds
  induction ds with
  | nil =>
      intro _ acc rest
      have hd := unitSeconds_isDigit_false hu
      simp [parseTok, hd, hu]
  | cons d ds ih =>
      intro hdig acc rest
      have hd : d.isDigit := hdig d (by simp)
      simp only [List.cons_append, parseTok, hd, if_true, List.foldl_cons]
      exact ih (fun c hc => hdig c (by simp [hc])) (10 * acc + digitVal d) rest

theorem parseTok_run_decomp :
    ∀ (cs : List Char) (acc n : Nat), parseTok true acc cs = some n →
      ∃ ds u w rest t, cs = ds ++ u :: rest ∧ (∀ c ∈ ds, c.isDigit) ∧
        unitSeconds u = some w ∧ parseTok false 0 rest = some t ∧
        n = ds.foldl (fun a c => 10 * a + digitVal c) acc * w + t := by
  intro cs
  induction cs with
  | nil => intro acc n h; simp [parseTok] at h
  | cons c cs ih =>
      intro acc n h
      by_cases hd : c.isDigit
      · simp only [parseTok, hd, if_true] at h
        obtain ⟨ds, u, w, rest, t, hcs, hdig, hu, ht, hn⟩ := ih _ _ h
        refine ⟨c :: ds, u, w, rest, t, by simp [hcs], ?_, hu, ht, ?_⟩
        · intro c' hc'
          rcases List.mem_cons.mp hc' with h' | h'
          · exact h' ▸ hd
          · exact hdig c' h'
        · simpa [List.foldl_cons] using hn
      · simp only [parseTok, hd, if_false, Bool.false_eq_true] at h
        cases hcu : unitSeconds c with
        | none => rw [hcu] at h; simp at h
        | some w =>
            rw [hcu] at h
            obtain ⟨t, ht, hn⟩ := Option.map_eq_some'.mp h
            exact ⟨[], c, w, cs, t, rfl, by simp, hcu, ht, by simp [hn.symm]⟩

theorem tokenSum_of_parseTokens :
    ∀ (cs : List Char) (n : Nat), parseTokens cs = some n → TokenSum cs n := by
  suffices h : ∀ (k : Nat) (cs : List Char), cs.length ≤ k →
      ∀ n, parseTokens cs = some n → TokenSum cs n by
    exact fun cs n hp => h cs.length cs le_rfl n hp
  intro k
  induction k with
  | zero =>
      intro cs hlen n hp
      have : cs = [] := List.length_eq_zero.mp (Nat.le_zero.mp hlen)
      subst this
      have : n = 0 := by simpa [parseTokens, parseTok] using hp.symm
      subst this
      exact TokenSum.nil
  | succ k ih =>
      intro cs hlen n hp
      match cs with
      | [] =>
          have : n = 0 := by simpa [parseTokens, parseTok] using hp.symm
          subst this
          exact TokenSum.nil
      | c :: cs' =>
          by_cases hd : c.isDigit
          · simp only [parseTokens, parseTok, hd, if_true] at hp
            obtain ⟨ds, u, w, rest, t, hcs, hdig, hu, ht, hn⟩ :=
              parseTok_run_decomp cs' (digitVal c) n hp
            have hrest : rest.length ≤ k := by
              have := congrArg List.length hcs
              simp only [List.length_append, List.length_cons] at this
              simp only [List.length_cons] at hlen
              omega
            have hts : TokenSum rest t := ih rest hrest t ht
            have hfold : (c :: ds).foldl (fun a c => 10 * a + digitVal c) 0 =
                ds.foldl (fun a c => 10 * a + digitVal c) (digitVal c) := by
              simp [List.foldl_cons]
            have := TokenSum.cons (c :: ds) u w rest t (by simp)
              (fun c' hc' => by
                rcases List.mem_cons.mp hc' with h' | h'
                · exact h' ▸ hd
                · exact hdig c' h') hu hts
            rw [hfold] at this
            simpa [hcs, hn] using this
          · simp [parseTokens, parseTok, hd] at hp

theorem parseTokens_of_tokenSum {cs : List Char} {n : Nat}
    (h : TokenSum cs n) : parseTokens cs = some n := by
  induction h with
  | nil => rfl
  | cons ds u w rest t hne hdig hu hrest ih =>
      match ds, hne with
      | d :: ds', _ =>
          have hd : d.isDigit := hdig d (by simp)
          have step : parseTokens ((d :: ds') ++ u :: rest) =
              parseTok true (digitVal d) (ds' ++ u :: rest) := by
            simp [parseTokens, parseTok, hd]
          rw [step,
            parseTok_run_append u w hu ds' (fun c hc => hdig c (by simp [hc])),
            show parseTok false 0 rest = parseTokens rest from rfl, ih]
          simp [List.foldl_cons]

/-- The executable parser computes exactly the token-grammar sum. -/
theorem parseTokens_iff_tokenSum (cs : List Char) (n : Nat) :
    parseTokens cs = some n ↔ TokenSum cs n :=
  ⟨tokenSum_of_parseTokens cs n, parseTokens_of_tokenSum⟩

/-- **C1** (amended). Duration validation first deletes every space and
lowercases the input (`duration.replace(" ", "").lower()`); it succeeds with
value `n` iff the *cleaned* character sequence is a contiguous cover by
`(integer)(unit)` tokens (units `h`/`m`/`s`) summing to `n` with
`0 < n ≤ 86400`.  The spec's examples hold: `"1h30m" ↦ 5400`, `"45s" ↦ 45`,
and `"1h 30"` and `"0s"` are rejected (the former because `30` lacks a unit,
not because the space breaks contiguity). -/
theorem c1_duration_parsing :
    (∀ (s : String) (n : Nat),
        validateDuration s = some n ↔
          (TokenSum (durationClean s) n ∧ 0 < n ∧ n ≤ MAX_DURATION_SECONDS))
    ∧ validateDuration "1h30m" = some 5400
    ∧ validateDuration "45s" = some 45
    ∧ validateDuration "1h 30" = none
    ∧ validateDuration "0s" = none := by
  refine ⟨?_, by decide, by decide, by decide, by decide⟩
  intro s n
  unfold validateDuration _parse_duration_seconds
  cases hp : parseTokens (durationClean s) with
  | none =>
      simp only []
      constructor
      · intro h; cases h
      · rintro ⟨hts, -, -⟩
        rw [(parseTokens_iff_tokenSum _ _).mpr hts] at hp
        cases hp
  | some t =>
      by_cases ht0 : t = 0
      · subst ht0
        simp only [if_pos rfl]
        constructor
        · intro h; cases h
        · rintro ⟨hts, hn, -⟩
          have := (parseTokens_iff_tokenSum _ _).mpr hts
          rw [hp] at this
          cases this
          omega
      · simp only [if_neg ht0]
        constructor
        · intro h
          by_cases hr : t ≤ 0 ∨ MAX_DURATION_SECONDS < t
          · rw [if_pos hr] at h; cases h
          · rw [if_neg hr] at h
            cases h
            push_neg at hr
            exact ⟨(parseTokens_iff_tokenSum _ _).mp hp, by omega, hr.2⟩
        · rintro ⟨hts, hn, hmax⟩
          have := (parseTokens_iff_tokenSum _ _).mpr hts
          rw [hp] at this
          cases this
          rw [if_neg (by omega)]

/-- **C1** counterexample. The claim as stated requires that parsing succeed
*only* on inputs that are themselves gap-free token sequences; but the code
deletes spaces before tokenizing, so `"1h 30m"` — which contains a space and
is therefore not a contiguous token cover of the input — is accepted with
value 5400. -/
theorem c1_counterexample :
    validateDuration "1h 30m" = some 5400 ∧ ¬ TokenSum ("1h 30m".data) 5400 := by
  constructor
  · decide
  · intro h
    have := (parseTokens_iff_tokenSum _ _).mpr h
    have hnone : parseTokens ("1h 30m".data) = none := by decide
    rw [hnone] at this
    cases this

/-- **C6**. The boundary wait is `0` when the interval is `0` (or negative) or
when the current time of day lies exactly on a multiple of the interval, and
otherwise it is the least positive number of seconds `w` such that
`secondsToday + w` is a multiple of the interval (the next multiple of the
interval counted from midnight); in particular
`waitUntilBoundary(05:27:00, 15) = 180` and `waitUntilBoundary(05:30:00, 15) = 0`. -/
theorem c6_boundary_wait :
    (∀ (h m s : Nat) (i : Int), i ≤ 0 →
        _seconds_until_next_interval_boundary h m s i = 0)
    ∧ (∀ (h m s : Nat) (i : Int), 0 < i →
        secondsToday h m s % (i * 60) = 0 →
        _seconds_until_next_interval_boundary h m s i = 0)
    ∧ (∀ (h m s : Nat) (i : Int), 0 < i →
        secondsToday h m s % (i * 60) ≠ 0 →
        0 < _seconds_until_next_interval_boundary h m s i
        ∧ (secondsToday h m s + _seconds_until_next_interval_boundary h m s i)
            % (i * 60) = 0
        ∧ ∀ w : Int, 0 < w →
            (secondsToday h m s + w) % (i * 60) = 0 →
            _seconds_until_next_interval_boundary h m s i ≤ w)
    ∧ _seconds_until_next_interval_boundary 5 27 0 15 = 180
    ∧ _seconds_until_next_interval_boundary 5 30 0 15 = 0 := by
  refine ⟨?_, ?_, ?_, by decide, by decide⟩
  · intro h m s i hi
    simp [_seconds_until_next_interval_boundary, hi]
  · intro h m s i hi hr
    have hnle : ¬ (i ≤ 0) := by omega
    simp [_seconds_until_next_interval_boundary, hnle, hr]
  · intro h m s i hi hr
    have hnle : ¬ (i ≤ 0) := by omega
    have hIpos : (0 : Int) < i * 60 := by omega
    have hval : _seconds_until_next_interval_boundary h m s i =
        i * 60 - secondsToday h m s % (i * 60) := by
      simp [_seconds_until_next_interval_boundary, hnle, hr]
    have hrnn : 0 ≤ secondsToday h m s % (i * 60) :=
      Int.emod_nonneg _ (by omega)
    have hrlt : secondsToday h m s % (i * 60) < i * 60 :=
      Int.emod_lt_of_pos _ hIpos
    refine ⟨by omega, ?_, ?_⟩
    · rw [hval]
      have hdef : secondsToday h m s % (i * 60) =
          secondsToday h m s - i * 60 * (secondsToday h m s / (i * 60)) :=
        Int.emod_def _ _
      have harr : secondsToday h m s +
          (i * 60 - secondsToday h m s % (i * 60)) =
          (i * 60) * (secondsToday h m s / (i * 60) + 1) := by
        rw [hdef]; ring
      rw [harr]
      exact Int.mul_emod_right _ _
    · intro w hw hmod
      rw [hval]
      by_contra hlt
      push_neg at hlt
      have hdef : secondsToday h m s % (i * 60) =
          secondsToday h m s - i * 60 * (secondsToday h m s / (i * 60)) :=
        Int.emod_def _ _
      have harr : secondsToday h m s + w =
          (secondsToday h m s % (i * 60) + w) +
            (secondsToday h m s / (i * 60)) * (i * 60) := by
        rw [hdef]; ring
      rw [harr, Int.add_mul_emod_self] at hmod
      rw [Int.emod_eq_of_lt (by omega) (by omega)] at hmod
      omega

/-- Witness for `c6_boundary_wait`: instantiates each hypothesis-bearing
conjunct at concrete inputs. -/
theorem c6_boundary_wait_witness :
    _seconds_until_next_interval_boundary 9 0 0 0 = 0 ∧
    _seconds_until_next_interval_boundary 5 30 0 15 = 0 ∧
    _seconds_until_next_interval_boundary 5 27 0 15 ≤ 1080 := by
  have h := c6_boundary_wait
  exact ⟨h.1 9 0 0 0 (by decide),
    h.2.1 5 30 0 15 (by decide) (by decide),
    (h.2.2.1 5 27 0 15 (by decide) (by decide)).2.2 1080 (by decide) (by decide)⟩

/-! ## Data model

`CountdownEntry` (countdown.py lines 75–118) with Python JSON values
modelled by `PyVal`.  Wall-clock timestamps are integers (the stored fields
are `int`s in the source; `time.time()` comparisons are modelled on the
integer time line). -/

structure CountdownEntry where
  id : String
  guild_id : Int
  channel_id : Int
  created_by_user_id : Int
  created_at_ts : Int
  start_ts : Option Int
  end_ts : Int
  ping_user_id : Option Int
  ping_role_id : Option Int
  kind : String
  team_role_id : Option Int
deriving DecidableEq, Repr

/-- A JSON-decoded Python value as stored in `countdowns.json`. -/
inductive PyVal where
  | pyNull
  | pyInt (i : Int)
  | pyStr (s : String)
deriving DecidableEq, Repr

abbrev PyDict := List (String × PyVal)

/-- Python `str.upper()` (ASCII; ids only contain ASCII characters). -/
def strUpper (s : String) : String := String.mk (s.data.map Char.toUpper)

/-- Python `str.lower()` (ASCII). -/
def strLower (s : String) : String := String.mk (s.data.map Char.toLower)

/-- Python whitespace for `str.strip()`. -/
def isPySpace (c : Char) : Bool :=
  c == ' ' || c == '\t' || c == '\n' || c == '\r' || c == '\x0b' || c == '\x0c'

/-- Python `str.strip()`. -/
def pyStrip (s : String) : String :=
  String.mk (((s.data.dropWhile isPySpace).reverse.dropWhile isPySpace).reverse)

/-- Python `str(x)` on a JSON value. -/
def pyToStr : PyVal → String
  | .pyNull => "None"
  | .pyInt i => toString i
  | .pyStr s => s

/-- Decimal integer literal parse, for Python `int(str)`. -/
def parseIntStr (s : String) : Option Int :=
  match s.data with
  | '-' :: ds => if ds ≠ [] ∧ ∀ c ∈ ds, c.isDigit
      then some (-(ds.foldl (fun a c => 10 * a + (digitVal c : Int)) 0)) else none
  | ds => if ds ≠ [] ∧ ∀ c ∈ ds, c.isDigit
      then some (ds.foldl (fun a c => 10 * a + (digitVal c : Int)) 0) else none

/-- Python `int(x)`: identity on ints, decimal parse on strings, `TypeError`
on `None` (modelled as `none`). -/
def pyToInt : PyVal → Option Int
  | .pyNull => none
  | .pyInt i => some i
  | .pyStr s => parseIntStr s

def pyGet (d : PyDict) (k : String) : Option PyVal := dlookup k d

/-- `int(data[k])`: `KeyError` when absent, then an `int()` conversion. -/
def reqInt (d : PyDict) (k : String) : Option Int := (pyGet d k).bind pyToInt

/-- `int(data[k]) if data.get(k) is not None else None`. -/
def optInt (d : PyDict) (k : String) : Option (Option Int) :=
  match pyGet d k with
  | none => some none
  | some .pyNull => some none
  | some v => (pyToInt v).map some

/-- `data.get("kind", "countdown")`.  (The source stores whatever value is
present without conversion; a present non-string value — which the program
never writes — is modelled as a parse failure.) -/
def kindField (d : PyDict) : Option String :=
  match pyGet d "kind" with
  | none => some "countdown"
  | some (.pyStr s) => some s
  | some _ => none

/-- `CountdownEntry.from_dict` (countdown.py lines 89–103): any raised
`KeyError`/`ValueError`/`TypeError` is modelled as `none`. -/
def from_dict (d : PyDict) : Option CountdownEntry :=
  match pyGet d "id", reqInt d "guild_id", reqInt d "channel_id",
      reqInt d "created_by_user_id", reqInt d "created_at_ts",
      optInt d "start_ts", reqInt d "end_ts", optInt d "ping_user_id",
      optInt d "ping_role_id", kindField d, optInt d "team_role_id" with
  | some idv, some g, some c, some u, some ca, some st, some e,
      some pu, some pr, some kd, some tr =>
      some ⟨strUpper (pyToStr idv), g, c, u, ca, st, e, pu, pr, kd, tr⟩
  | _, _, _, _, _, _, _, _, _, _, _ => none

def optV : Option Int → PyVal
  | none => .pyNull
  | some i => .pyInt i

/-- `CountdownEntry.to_dict` (countdown.py lines 105–118). -/
def to_dict (e : CountdownEntry) : PyDict :=
  [("id", .pyStr e.id), ("guild_id", .pyInt e.guild_id),
   ("channel_id", .pyInt e.channel_id),
   ("created_by_user_id", .pyInt e.created_by_user_id),
   ("created_at_ts", .pyInt e.created_at_ts),
   ("start_ts", optV e.start_ts), ("end_ts", .pyInt e.end_ts),
   ("ping_user_id", optV e.ping_user_id),
   ("ping_role_id", optV e.ping_role_id), ("kind", .pyStr e.kind),
   ("team_role_id", optV e.team_role_id)]

/-! ## Interval groups (the `_interval_groups` dictionaries)

The `thread_id` field holds `None` (no space), the sentinel string
`"pending"`, or a thread id; modelled as the tri-state `SpaceState`. -/

inductive SpaceState where
  | unset
  | pending
  | created (spaceId : Nat)
deriving DecidableEq, Repr

structure IGroup where
  team_role_ids : List Int
  entry_ids : List String
  thread_id : SpaceState
  member_ids : List Int
  created_at : Int
deriving DecidableEq, Repr

def emptyGroup (now : Int) : IGroup := ⟨[], [], .unset, [], now⟩

/-- Add one entry's team role and id to a group (`set.add` twice). -/
def groupJoin (g : IGroup) (rid : Int) (eid : String) : IGroup :=
  { g with team_role_ids := setAdd rid g.team_role_ids,
           entry_ids := setAdd eid g.entry_ids }

abbrev GroupKey := Int × Int × Int

abbrev Groups := List (GroupKey × IGroup)

/-- `self._interval_groups.setdefault(key, {...})` followed by the two
`add` calls. -/
def registerGroup (now : Int) (groups : Groups) (key : GroupKey)
    (rid : Int) (eid : String) : Groups :=
  let g := (dlookup key groups).getD (emptyGroup now)
  dinsert key (groupJoin g rid eid) groups

/-- `_register_interval_group` (countdown.py lines 276–291). -/
def _register_interval_group (now : Int) (groups : Groups)
    (e : CountdownEntry) : Groups :=
  match e.start_ts, e.team_role_id with
  | some st, some r => registerGroup now groups (e.guild_id, st, e.end_ts) r e.id
  | _, _ => groups

/-! ## Cog state and the cancellation / travel operations

The mutable state of the `Countdown` cog: the active map, the persisted
store contents (`countdowns.json` after the last `save_json`), the task
maps (by countdown id), the travel debounce map and the interval groups.
`save_json` is atomic (write-to-temp-then-replace), so the store is
modelled as simply holding the last written list. -/

structure CogState where
  active : List (String × CountdownEntry)
  store : List CountdownEntry
  tasks : List String
  wait_tasks : List String
  travel_debounce : List ((Int × Int) × Int)
  interval_groups : Groups
deriving DecidableEq, Repr

/-- `entry_ids.discard(entry.id)` on a group. -/
def groupErase (g : IGroup) (eid : String) : IGroup :=
  { g with entry_ids := g.entry_ids.erase eid }

/-- `_cleanup_interval_group` (countdown.py lines 428–456); archiving the
thread and removing members are platform effects with no scheduler state. -/
def _cleanup_interval_group (st : CogState) (e : CountdownEntry) : CogState :=
  if e.start_ts = none ∨ e.kind ≠ "travel" then st
  else
    match e.start_ts with
    | none => st
    | some stv =>
        match dlookup (e.guild_id, stv, e.end_ts) st.interval_groups with
        | none => st
        | some g =>
            if (groupErase g e.id).entry_ids = [] then
              { st with interval_groups :=
                  dremove (e.guild_id, stv, e.end_ts) st.interval_groups }
            else
              { st with interval_groups :=
                  dinsert (e.guild_id, stv, e.end_ts) (groupErase g e.id) st.interval_groups }

/-- `_cancel_entry` (countdown.py lines 504–513): pop from the active map,
persist, cancel the wait task and the timer task, then clean up the
interval group. -/
def _cancel_entry (st : CogState) (e : CountdownEntry) : CogState :=
  let st1 := { st with active := dremove e.id st.active }
  let st2 := { st1 with store := st1.active.map Prod.snd }
  let st3 := { st2 with wait_tasks := st2.wait_tasks.erase e.id,
                        tasks := st2.tasks.erase e.id }
  _cleanup_interval_group st3 e

inductive CancelOutcome where
  | recentRoute
  | noPermission
  | notFound
  | cancelled (e : CountdownEntry)
deriving DecidableEq, Repr

/-- `cancel_countdown` (countdown.py lines 698–743) for an in-guild member:
strip the argument; route `"recent"` (case-insensitively) to the
self-service path; require the admin role; then look up the stripped,
uppercased id. -/
def cancel_countdown (st : CogState) (isAdmin : Bool) (arg : String) :
    CancelOutcome × CogState :=
  let normalized := pyStrip arg
  if strLower normalized = "recent" then (.recentRoute, st)
  else if ¬ isAdmin then (.noPermission, st)
  else
    match dlookup (strUpper normalized) st.active with
    | none => (.notFound, st)
    | some e => (.cancelled e, _cancel_entry st e)

/-- The list-comprehension filter of `_find_recent_travel_for_team`. -/
def isTravelOfTeam (teamRoleId : Int) (e : CountdownEntry) : Bool :=
  decide (e.kind = "travel" ∧ e.team_role_id = some teamRoleId)

/-- One step of Python `max(..., key=lambda e: e.created_at_ts)`: the running
maximum is replaced only on a strictly greater key, so the first of several
maxima is kept. -/
def laterCreated (best e : CountdownEntry) : CountdownEntry :=
  if best.created_at_ts < e.created_at_ts then e else best

/-- `_find_recent_travel_for_team` (countdown.py lines 458–466). -/
def _find_recent_travel_for_team (active : List (String × CountdownEntry))
    (teamRoleId : Int) : Option CountdownEntry :=
  match (active.map Prod.snd).filter (isTravelOfTeam teamRoleId) with
  | [] => none
  | c :: cs => some (cs.foldl laterCreated c)

inductive RecentOutcome where
  | notFound
  | refused
  | cancelled (e : CountdownEntry)
deriving DecidableEq, Repr

/-- `_cancel_recent_travel` (countdown.py lines 468–502) after the team
role has been resolved to `teamRoleId`: the grace-window test is
`time.time() - entry.created_at_ts > 180`. -/
def _cancel_recent_travel (st : CogState) (now : Int) (teamRoleId : Int) :
    RecentOutcome × CogState :=
  match _find_recent_travel_for_team st.active teamRoleId with
  | none => (.notFound, st)
  | some e =>
      if 180 < now - e.created_at_ts then (.refused, st)
      else (.cancelled e, _cancel_entry st e)

inductive TravelOutcome where
  | throttled
  | accepted
deriving DecidableEq, Repr

/-- The state after an accepted travel request (countdown.py lines 662–667):
record the debounce timestamp, put the entry in the active map, persist,
and register the interval group when the start is delayed
(`wait_seconds > 0`). -/
def travelAccept (st : CogState) (guildId teamRoleId : Int)
    (nowMono nowWall : Int) (entry : CountdownEntry) (waitSeconds : Int) :
    CogState :=
  { active := dinsert entry.id entry st.active,
    store := (dinsert entry.id entry st.active).map Prod.snd,
    tasks := st.tasks,
    wait_tasks := st.wait_tasks,
    travel_debounce := dinsert (guildId, teamRoleId) nowMono st.travel_debounce,
    interval_groups :=
      if 0 < waitSeconds then
        _register_interval_group nowWall st.interval_groups entry
      else st.interval_groups }

/-- The debounce-guarded mutation section of the `travel` command
(countdown.py lines 651–671): under the lock, reject when the last accepted
request for `(guild, team_role)` is less than 5 (monotonic) seconds old;
otherwise accept. -/
def travelAttempt (st : CogState) (guildId teamRoleId : Int)
    (nowMono nowWall : Int) (entry : CountdownEntry) (waitSeconds : Int) :
    TravelOutcome × CogState :=
  if (match dlookup (guildId, teamRoleId) st.travel_debounce with
      | some last => decide (nowMono - last < 5)
      | none => false) = true
  then (.throttled, st)
  else (.accepted, travelAccept st guildId teamRoleId nowMono nowWall entry waitSeconds)

/-! ## `_generate_unique_id` (countdown.py lines 269–274)

```python
existing_ids = set(self._active.keys()) | set(self._tasks.keys())
while True:
    candidate = "".join(random.choice(ID_CHARSET) for _ in range(ID_LENGTH))
    if candidate not in existing_ids:
        return candidate
```

`random.choice` is derandomized into an oracle stream of draws (one block of
`ID_LENGTH` choices per loop iteration); the unbounded `while True` is given
fuel, so termination statements are relative to the stream eventually
offering a free candidate. -/

def ID_CHARSET : List Char := "ABCDEFGHIJKLMNOPQRSTUVWXYZ0123456789".data

def ID_LENGTH : Nat := 5

def charsetGet (i : Fin 36) : Char := ID_CHARSET.getD i.val 'A'

/-- The string built by one loop iteration from its `ID_LENGTH` draws. -/
def candidate (draws : Fin ID_LENGTH → Fin 36) : String :=
  String.mk ((List.finRange ID_LENGTH).map (fun i => charsetGet (draws i)))

def _generate_unique_id (stream : Nat → Fin ID_LENGTH → Fin 36)
    (existing : List String) : Nat → Option String
  | 0 => none
  | fuel + 1 =>
      let cand := candidate (stream 0)
      if cand ∈ existing then
        _generate_unique_id (fun n => stream (n + 1)) existing fuel
      else some cand

/-- Sequential `create` calls: each generates an id against the current set
of known ids and then registers it (the event loop serializes the
generate-and-register section; there is no suspension point between them). -/
def createSeq (fuel : Nat) :
    List (Nat → Fin ID_LENGTH → Fin 36) → List String → Option (List String)
  | [], _ => some []
  | stream :: rest, existing =>
      match _generate_unique_id stream existing fuel with
      | none => none
      | some c => (createSeq fuel rest (c :: existing)).map (fun ids => c :: ids)

theorem charsetGet_mem (i : Fin 36) : charsetGet i ∈ ID_CHARSET := by
  have : ∀ j : Fin 36, charsetGet j ∈ ID_CHARSET := by decide
  exact this i

theorem candidate_length (draws : Fin ID_LENGTH → Fin 36) :
    (candidate draws).length = ID_LENGTH := by
  simp [candidate, String.length]

theorem candidate_chars (draws : Fin ID_LENGTH → Fin 36) :
    ∀ ch ∈ (candidate draws).data, ch ∈ ID_CHARSET := by
  intro ch hch
  simp only [candidate, String.data, List.mem_map] at hch
  obtain ⟨i, -, hi⟩ := hch
  exact hi ▸ charsetGet_mem (draws i)

theorem generate_some_spec :
    ∀ (fuel : Nat) (stream : Nat → Fin ID_LENGTH → Fin 36)
      (existing : List String) (c : String),
      _generate_unique_id stream existing fuel = some c →
      c ∉ existing ∧ c.length = ID_LENGTH ∧ ∀ ch ∈ c.data, ch ∈ ID_CHARSET := by
  intro fuel
  induction fuel with
  | zero => intro stream existing c h; simp [_generate_unique_id] at h
  | succ fuel ih =>
      intro stream existing c h
      simp only [_generate_unique_id] at h
      by_cases hm : candidate (stream 0) ∈ existing
      · rw [if_pos hm] at h
        exact ih _ _ _ h
      · rw [if_neg hm] at h
        cases h
        exact ⟨hm, candidate_length _, candidate_chars _⟩

theorem generate_terminates :
    ∀ (fuel k : Nat) (stream : Nat → Fin ID_LENGTH → Fin 36)
      (existing : List String),
      candidate (stream k) ∉ existing → k < fuel →
      (_generate_unique_id stream existing fuel).isSome := by
  intro fuel
  induction fuel with
  | zero => intro k stream existing _ hk; omega
  | succ fuel ih =>
      intro k stream existing hfree hk
      simp only [_generate_unique_id]
      by_cases hm : candidate (stream 0) ∈ existing
      · rw [if_pos hm]
        match k with
        | 0 => exact absurd hm hfree
        | k' + 1 =>
            exact ih k' (fun n => stream (n + 1)) existing hfree (by omega)
      · rw [if_neg hm]; rfl

theorem createSeq_distinct :
    ∀ (streams : List (Nat → Fin ID_LENGTH → Fin 36)) (fuel : Nat)
      (existing : List String) (ids : List String),
      createSeq fuel streams existing = some ids →
      ids.Nodup ∧ ∀ c ∈ ids, c ∉ existing := by
  intro streams
  induction streams with
  | nil =>
      intro fuel existing ids h
      cases h
      exact ⟨List.nodup_nil, by simp⟩
  | cons stream rest ih =>
      intro fuel existing ids h
      simp only [createSeq] at h
      cases hg : _generate_unique_id stream existing fuel with
      | none => rw [hg] at h; cases h
      | some c =>
          rw [hg] at h
          obtain ⟨ids', hrest, hids⟩ := Option.map_eq_some'.mp h
          obtain ⟨hnd, hnotin⟩ := ih fuel (c :: existing) ids' hrest
          have hc := (generate_some_spec fuel stream existing c hg).1
          subst hids
          constructor
          · exact List.nodup_cons.mpr
              ⟨fun hmem => (hnotin c hmem) (List.mem_cons_self _ _), hnd⟩
          · intro x hx
            rcases List.mem_cons.mp hx with h' | h'
            · exact h' ▸ hc
            · exact fun hex => (hnotin x h') (List.mem_cons_of_mem _ hex)

/-- **C7**. A successfully generated identifier has exactly `ID_LENGTH = 5`
characters, all drawn from `ID_CHARSET` (uppercase letters and digits), and
is not among the known ids (active map keys plus task-owned keys) supplied
to the generator; the retry loop returns as soon as the draw stream offers a
free candidate (the `k`-th iteration, for any fuel beyond `k`); and
sequential create calls, each registering its id among the known ids before
the next generation, return pairwise-distinct ids. -/
theorem c7_unique_id_generation :
    (∀ (fuel : Nat) (stream : Nat → Fin ID_LENGTH → Fin 36)
        (existing : List String) (c : String),
        _generate_unique_id stream existing fuel = some c →
        c ∉ existing ∧ c.length = ID_LENGTH ∧ ∀ ch ∈ c.data, ch ∈ ID_CHARSET)
    ∧ (∀ (fuel k : Nat) (stream : Nat → Fin ID_LENGTH → Fin 36)
        (existing : List String),
        candidate (stream k) ∉ existing → k < fuel →
        (_generate_unique_id stream existing fuel).isSome)
    ∧ (∀ (streams : List (Nat → Fin ID_LENGTH → Fin 36)) (fuel : Nat)
        (existing : List String) (ids : List String),
        createSeq fuel streams existing = some ids →
        ids.Nodup ∧ ∀ c ∈ ids, c ∉ existing) :=
  ⟨generate_some_spec, generate_terminates, createSeq_distinct⟩

/-- Witness for `c7_unique_id_generation` at a concrete draw stream. -/
theorem c7_unique_id_generation_witness :
    ("AAAAA" ∉ ([] : List String) ∧ "AAAAA".length = ID_LENGTH
      ∧ ∀ ch ∈ "AAAAA".data, ch ∈ ID_CHARSET)
    ∧ (_generate_unique_id (fun _ _ => (0 : Fin 36)) ["AAAAA"] 1).isSome = false
    ∧ ["AAAAA", "BBBBB"].Nodup := by
  refine ⟨?_, by decide, ?_⟩
  · exact c7_unique_id_generation.1 1 (fun _ _ => (0 : Fin 36)) [] "AAAAA" (by decide)
  · exact (c7_unique_id_generation.2.2
      [fun _ _ => (0 : Fin 36), fun _ _ => (1 : Fin 36)] 1 []
      ["AAAAA", "BBBBB"] (by decide)).1

/-! ## C3 / C4 / C5 theorems -/

theorem cleanup_fields (st : CogState) (e : CountdownEntry) :
    (_cleanup_interval_group st e).active = st.active ∧
    (_cleanup_interval_group st e).store = st.store ∧
    (_cleanup_interval_group st e).tasks = st.tasks ∧
    (_cleanup_interval_group st e).wait_tasks = st.wait_tasks ∧
    (_cleanup_interval_group st e).travel_debounce = st.travel_debounce := by
  unfold _cleanup_interval_group
  split
  · exact ⟨rfl, rfl, rfl, rfl, rfl⟩
  · split
    · exact ⟨rfl, rfl, rfl, rfl, rfl⟩
    · split
      · exact ⟨rfl, rfl, rfl, rfl, rfl⟩
      · split
        · exact ⟨rfl, rfl, rfl, rfl, rfl⟩
        · exact ⟨rfl, rfl, rfl, rfl, rfl⟩

theorem cancel_entry_active (st : CogState) (e : CountdownEntry) :
    (_cancel_entry st e).active = dremove e.id st.active := by
  unfold _cancel_entry
  rw [(cleanup_fields _ _).1]

/-- **C3**. Cancellation is idempotent: cancelling an id that (after
normalization) is not in the active map reports not-found and returns the
state entirely unchanged (active map, persisted store, tasks, debounce and
interval groups); and after a successful cancellation, repeating the same
call reports not-found and again changes nothing — the first call's effects
are neither reversed nor duplicated. -/
theorem c3_cancel_idempotent :
    (∀ (st : CogState) (arg : String),
        strLower (pyStrip arg) ≠ "recent" →
        dlookup (strUpper (pyStrip arg)) st.active = none →
        cancel_countdown st true arg = (.notFound, st))
    ∧ (∀ (st st' : CogState) (arg : String) (e : CountdownEntry),
        (st.active.map Prod.fst).Nodup →
        (∀ k e', dlookup k st.active = some e' → e'.id = k) →
        cancel_countdown st true arg = (.cancelled e, st') →
        cancel_countdown st' true arg = (.notFound, st')) := by
  constructor
  · intro st arg h1 h2
    simp [cancel_countdown, h1, h2]
  · intro st st' arg e hnd hwf hc
    by_cases h1 : strLower (pyStrip arg) = "recent"
    · simp [cancel_countdown, h1] at hc
    · simp only [cancel_countdown, if_neg h1] at hc ⊢
      cases hl : dlookup (strUpper (pyStrip arg)) st.active with
      | none => simp [hl] at hc
      | some e0 =>
          simp only [hl, not_true, if_neg, reduceIte] at hc
          obtain ⟨he, hst⟩ := Prod.mk.injEq .. |>.mp hc
          cases he
          have hid : e.id = strUpper (pyStrip arg) := hwf _ _ hl
          have hnone : dlookup (strUpper (pyStrip arg)) st'.active = none := by
            rw [← hst, cancel_entry_active, ← hid]
            exact dlookup_dremove_self _ _ hnd
          simp [hnone]

theorem foldl_laterCreated_mem (c : CountdownEntry)
    (cs : List CountdownEntry) : cs.foldl laterCreated c ∈ c :: cs := by
  induction cs generalizing c with
  | nil => simp
  | cons d ds ih =>
      simp only [List.foldl_cons]
      have h' := ih (laterCreated c d)
      rcases List.mem_cons.mp h' with h1 | h1
      · rw [h1]
        unfold laterCreated
        split
        · exact List.mem_cons_of_mem _ (List.mem_cons_self _ _)
        · exact List.mem_cons_self _ _
      · exact List.mem_cons_of_mem _ (List.mem_cons_of_mem _ h1)

theorem foldl_laterCreated_ge (c : CountdownEntry)
    (cs : List CountdownEntry) :
    ∀ x ∈ c :: cs, x.created_at_ts ≤ (cs.foldl laterCreated c).created_at_ts := by
  induction cs generalizing c with
  | nil =>
      intro x hx
      rcases List.mem_cons.mp hx with h | h
      · exact h ▸ le_refl _
      · cases h
  | cons d ds ih =>
      intro x hx
      simp only [List.foldl_cons]
      have hc : c.created_at_ts ≤ (laterCreated c d).created_at_ts := by
        unfold laterCreated; split <;> omega
      have hd : d.created_at_ts ≤ (laterCreated c d).created_at_ts := by
        unfold laterCreated; split <;> omega
      have hmax := ih (laterCreated c d) (laterCreated c d)
        (List.mem_cons_self _ _)
      rcases List.mem_cons.mp hx with h | h
      · subst h; exact le_trans hc hmax
      · rcases List.mem_cons.mp h with h' | h'
        · subst h'; exact le_trans hd hmax
        · exact ih (laterCreated c d) x (List.mem_cons_of_mem _ h')

/-- **C4**. Self-service cancellation targets the requestor's team's active
travel entry with the greatest creation timestamp, and succeeds exactly when
`now − createdAt ≤ 180` seconds; outside the grace window it is refused and
the state — in particular the still-existing entry — is left unchanged. -/
theorem c4_recent_travel_grace :
    ∀ (st : CogState) (now teamRoleId : Int) (e : CountdownEntry),
      _find_recent_travel_for_team st.active teamRoleId = some e →
      (e.kind = "travel" ∧ e.team_role_id = some teamRoleId
        ∧ e ∈ st.active.map Prod.snd
        ∧ ∀ e' ∈ st.active.map Prod.snd, e'.kind = "travel" →
            e'.team_role_id = some teamRoleId →
            e'.created_at_ts ≤ e.created_at_ts)
      ∧ (now - e.created_at_ts ≤ 180 →
          _cancel_recent_travel st now teamRoleId
            = (.cancelled e, _cancel_entry st e))
      ∧ (180 < now - e.created_at_ts →
          _cancel_recent_travel st now teamRoleId = (.refused, st)) := by
  intro st now r e hf
  unfold _find_recent_travel_for_team at hf
  cases hcs : (st.active.map Prod.snd).filter (isTravelOfTeam r) with
  | nil => rw [hcs] at hf; cases hf
  | cons c cs =>
      rw [hcs] at hf
      have he : e = cs.foldl laterCreated c := by
        cases hf; rfl
      have hmem : e ∈ (st.active.map Prod.snd).filter (isTravelOfTeam r) := by
        rw [hcs, he]; exact foldl_laterCreated_mem c cs
      have hmem' := List.mem_filter.mp hmem
      have hprops := of_decide_eq_true hmem'.2
      refine ⟨⟨hprops.1, hprops.2, hmem'.1, ?_⟩, ?_, ?_⟩
      · intro e' he'mem hk ht
        have : e' ∈ (st.active.map Prod.snd).filter (isTravelOfTeam r) :=
          List.mem_filter.mpr ⟨he'mem, decide_eq_true ⟨hk, ht⟩⟩
        rw [hcs] at this
        rw [he]
        exact foldl_laterCreated_ge c cs e' this
      · intro hin
        have hfeq : _find_recent_travel_for_team st.active r = some e := by
          unfold _find_recent_travel_for_team; rw [hcs]; exact hf
        simp only [_cancel_recent_travel, hfeq]
        rw [if_neg (by omega)]
      · intro hout
        have hfeq : _find_recent_travel_for_team st.active r = some e := by
          unfold _find_recent_travel_for_team; rw [hcs]; exact hf
        simp only [_cancel_recent_travel, hfeq]
        rw [if_pos hout]

/-- **C5**. The `(guild, team_role)` travel debounce: a request arriving
less than 5 (monotonic) seconds after the last accepted one for the same key
is throttled with the state returned entirely unchanged — no entry added, no
persist, no interval group touched, and the recorded timestamp not updated;
a request with no recorded timestamp, or one arriving at least 5 seconds
later, is accepted, records the new timestamp and registers the entry. -/
theorem c5_travel_debounce :
    ∀ (st : CogState) (guildId teamRoleId nowMono nowWall : Int)
      (entry : CountdownEntry) (waitSeconds : Int),
      (∀ last, dlookup (guildId, teamRoleId) st.travel_debounce = some last →
        nowMono - last < 5 →
        travelAttempt st guildId teamRoleId nowMono nowWall entry waitSeconds
          = (.throttled, st))
      ∧ (∀ last, dlookup (guildId, teamRoleId) st.travel_debounce = some last →
        5 ≤ nowMono - last →
        (travelAttempt st guildId teamRoleId nowMono nowWall entry
            waitSeconds).fst = .accepted
        ∧ dlookup (guildId, teamRoleId)
            (travelAttempt st guildId teamRoleId nowMono nowWall entry
              waitSeconds).snd.travel_debounce = some nowMono
        ∧ dlookup entry.id
            (travelAttempt st guildId teamRoleId nowMono nowWall entry
              waitSeconds).snd.active = some entry)
      ∧ (dlookup (guildId, teamRoleId) st.travel_debounce = none →
        (travelAttempt st guildId teamRoleId nowMono nowWall entry
            waitSeconds).fst = .accepted
        ∧ dlookup (guildId, teamRoleId)
            (travelAttempt st guildId teamRoleId nowMono nowWall entry
              waitSeconds).snd.travel_debounce = some nowMono
        ∧ dlookup entry.id
            (travelAttempt st guildId teamRoleId nowMono nowWall entry
              waitSeconds).snd.active = some entry) := by
  intro st g r nm nw entry ws
  refine ⟨?_, ?_, ?_⟩
  · intro last hl hlt
    simp [travelAttempt, hl, hlt]
  · intro last hl hge
    have hfalse : ¬ (nm - last < 5) := by omega
    have hred : travelAttempt st g r nm nw entry ws
        = (.accepted, travelAccept st g r nm nw entry ws) := by
      simp [travelAttempt, hl, hfalse]
    rw [hred]
    exact ⟨rfl, dlookup_dinsert_self _ _ _, dlookup_dinsert_self _ _ _⟩
  · intro hl
    have hred : travelAttempt st g r nm nw entry ws
        = (.accepted, travelAccept st g r nm nw entry ws) := by
      simp [travelAttempt, hl]
    rw [hred]
    exact ⟨rfl, dlookup_dinsert_self _ _ _, dlookup_dinsert_self _ _ _⟩

/-- A concrete countdown entry for witnesses. -/
def wEntry : CountdownEntry :=
  ⟨"ABCDE", 1, 2, 3, 0, none, 100, none, none, "countdown", none⟩

/-- A concrete state whose active map holds `wEntry`. -/
def wState : CogState := ⟨[("ABCDE", wEntry)], [wEntry], [], [], [], []⟩

/-- A concrete travel entry for witnesses. -/
def wTravel : CountdownEntry :=
  ⟨"TRAVL", 1, 2, 3, 0, some 5, 100, none, some 9, "travel", some 9⟩

/-- A concrete state whose active map holds `wTravel`. -/
def wTravelState : CogState := ⟨[("TRAVL", wTravel)], [wTravel], [], [], [], []⟩

/-- Witness for `c3_cancel_idempotent`: cancelling an absent id, and
cancelling the same id twice, at concrete states. -/
theorem c3_cancel_idempotent_witness :
    cancel_countdown wState true "ZZZZZ" = (.notFound, wState)
    ∧ cancel_countdown (_cancel_entry wState wEntry) true " abcde " =
        (.notFound, _cancel_entry wState wEntry) := by
  constructor
  · exact c3_cancel_idempotent.1 wState "ZZZZZ" (by decide) (by decide)
  · refine c3_cancel_idempotent.2 wState _ " abcde " wEntry (by decide) ?_
      (by decide)
    intro k e' h
    by_cases hk : "ABCDE" = k
    · rw [show wState.active = [("ABCDE", wEntry)] from rfl] at h
      rw [show dlookup k [("ABCDE", wEntry)]
          = if "ABCDE" = k then some wEntry else none from rfl, if_pos hk] at h
      cases h
      rw [← hk]
      rfl
    · rw [show wState.active = [("ABCDE", wEntry)] from rfl] at h
      rw [show dlookup k [("ABCDE", wEntry)]
          = if "ABCDE" = k then some wEntry else none from rfl, if_neg hk] at h
      cases h

/-- Witness for `c4_recent_travel_grace` at a concrete state, inside and
outside the grace window. -/
theorem c4_recent_travel_grace_witness :
    _cancel_recent_travel wTravelState 100 9
      = (.cancelled wTravel, _cancel_entry wTravelState wTravel)
    ∧ _cancel_recent_travel wTravelState 300 9 = (.refused, wTravelState) := by
  have h1 := c4_recent_travel_grace wTravelState 100 9 wTravel (by decide)
  have h2 := c4_recent_travel_grace wTravelState 300 9 wTravel (by decide)
  exact ⟨h1.2.1 (by decide), h2.2.2 (by decide)⟩

/-- Witness for `c5_travel_debounce` at concrete states: a request 2 seconds
after the last accepted one is throttled; one 6 seconds after (and one with
no record) is accepted. -/
theorem c5_travel_debounce_witness :
    travelAttempt ⟨[], [], [], [], [((1, 9), 98)], []⟩ 1 9 100 100 wTravel 0
      = (.throttled, ⟨[], [], [], [], [((1, 9), 98)], []⟩)
    ∧ (travelAttempt ⟨[], [], [], [], [((1, 9), 94)], []⟩ 1 9 100 100 wTravel 0).fst
      = .accepted
    ∧ (travelAttempt ⟨[], [], [], [], [], []⟩ 1 9 100 100 wTravel 0).fst
      = .accepted := by
  refine ⟨?_, ?_, ?_⟩
  · exact (c5_travel_debounce ⟨[], [], [], [], [((1, 9), 98)], []⟩ 1 9 100 100
      wTravel 0).1 98 (by decide) (by decide)
  · exact ((c5_travel_debounce ⟨[], [], [], [], [((1, 9), 94)], []⟩ 1 9 100 100
      wTravel 0).2.1 94 (by decide) (by decide)).1
  · exact ((c5_travel_debounce ⟨[], [], [], [], [], []⟩ 1 9 100 100
      wTravel 0).2.2 (by decide)).1

/-! ## C10: id normalization in `cancel_countdown` -/

theorem char_toNat_ofNat {n : Nat} (h : n.isValidChar) :
    (Char.ofNat n).toNat = n := by
  simp only [Char.ofNat, dif_pos h]
  rfl

theorem char_eq_of_toNat_eq {c d : Char} (h : c.toNat = d.toNat) : c = d := by
  have h1 := Char.ofNat_toNat c
  have h2 := Char.ofNat_toNat d
  rw [← h1, ← h2, h]

theorem char_toUpper_idem (c : Char) : c.toUpper.toUpper = c.toUpper := by
  simp only [Char.toUpper]
  by_cases h1 : c.toNat ≥ 97 ∧ c.toNat ≤ 122
  · rw [if_pos h1]
    have hv : (c.toNat - 32).isValidChar := Or.inl (by omega)
    rw [if_neg (by rw [char_toNat_ofNat hv]; omega)]
  · rw [if_neg h1, if_neg h1]

theorem char_toLower_congr {c d : Char} (h : c.toUpper = d.toUpper) :
    c.toLower = d.toLower := by
  simp only [Char.toUpper] at h
  simp only [Char.toLower]
  by_cases h1 : c.toNat ≥ 97 ∧ c.toNat ≤ 122
  · by_cases h2 : d.toNat ≥ 97 ∧ d.toNat ≤ 122
    · rw [if_pos h1, if_pos h2] at h
      have hv1 : (c.toNat - 32).isValidChar := Or.inl (by omega)
      have hv2 : (d.toNat - 32).isValidChar := Or.inl (by omega)
      have hn := congrArg Char.toNat h
      rw [char_toNat_ofNat hv1, char_toNat_ofNat hv2] at hn
      rw [char_eq_of_toNat_eq (show c.toNat = d.toNat by omega)]
    · rw [if_pos h1, if_neg h2] at h
      have hv1 : (c.toNat - 32).isValidChar := Or.inl (by omega)
      have hd : d.toNat = c.toNat - 32 := by
        rw [← h, char_toNat_ofNat hv1]
      rw [if_neg (by omega), if_pos (by omega)]
      have harr : d.toNat + 32 = c.toNat := by omega
      rw [harr, Char.ofNat_toNat]
  · by_cases h2 : d.toNat ≥ 97 ∧ d.toNat ≤ 122
    · rw [if_neg h1, if_pos h2] at h
      have hv2 : (d.toNat - 32).isValidChar := Or.inl (by omega)
      have hc : c.toNat = d.toNat - 32 := by
        rw [h, char_toNat_ofNat hv2]
      rw [if_pos (by omega), if_neg (by omega)]
      have harr : c.toNat + 32 = d.toNat := by omega
      rw [harr, Char.ofNat_toNat]
    · rw [if_neg h1, if_neg h2] at h
      rw [h]

theorem map_toLower_congr : ∀ (l1 l2 : List Char),
    l1.map Char.toUpper = l2.map Char.toUpper →
    l1.map Char.toLower = l2.map Char.toLower := by
  intro l1
  induction l1 with
  | nil =>
      intro l2 h
      cases l2 with
      | nil => rfl
      | cons d ds => simp at h
  | cons c cs ih =>
      intro l2 h
      cases l2 with
      | nil => simp at h
      | cons d ds =>
          simp only [List.map_cons, List.cons.injEq] at h ⊢
          exact ⟨char_toLower_congr h.1, ih ds h.2⟩

theorem strUpper_idem (s : String) : strUpper (strUpper s) = strUpper s := by
  simp only [strUpper, List.map_map]
  have : Char.toUpper ∘ Char.toUpper = Char.toUpper := funext char_toUpper_idem
  rw [this]

theorem strLower_congr {a b : String} (h : strUpper a = strUpper b) :
    strLower a = strLower b := by
  have hdata : a.data.map Char.toUpper = b.data.map Char.toUpper :=
    congrArg String.data h
  simp only [strLower]
  rw [map_toLower_congr _ _ hdata]

/-- **C10**. `cancel_countdown` strips and normalizes its id argument:
the literal `"recent"` (any letter case, surrounding whitespace ignored) is
always routed to the self-service path regardless of admin status; entry ids
produced by `from_dict` are uppercase fixed points; any two arguments with
the same stripped-and-uppercased form behave identically (lookup by id is
case-insensitive); and a `"recent"`-routed argument can never equal a
generated id, because generated ids have exactly 5 characters while
`"recent"` has 6. -/
theorem c10_cancel_normalization :
    (∀ (st : CogState) (isAdmin : Bool) (arg : String),
        strLower (pyStrip arg) = "recent" →
        cancel_countdown st isAdmin arg = (.recentRoute, st))
    ∧ (∀ (d : PyDict) (e : CountdownEntry), from_dict d = some e →
        strUpper e.id = e.id)
    ∧ (∀ (st : CogState) (isAdmin : Bool) (a b : String),
        strUpper (pyStrip a) = strUpper (pyStrip b) →
        cancel_countdown st isAdmin a = cancel_countdown st isAdmin b)
    ∧ (∀ (arg : String) (draws : Fin ID_LENGTH → Fin 36),
        strLower (pyStrip arg) = "recent" →
        strUpper (pyStrip arg) ≠ candidate draws) := by
  refine ⟨?_, ?_, ?_, ?_⟩
  · intro st isAdmin arg h
    simp [cancel_countdown, h]
  · intro d e h
    unfold from_dict at h
    split at h
    · cases h
      exact strUpper_idem _
    · cases h
  · intro st isAdmin a b h
    have hlow : strLower (pyStrip a) = strLower (pyStrip b) := strLower_congr h
    simp only [cancel_countdown, hlow, h]
  · intro arg draws h
    intro heq
    have hl1 : (strUpper (pyStrip arg)).length = (pyStrip arg).data.length := by
      show ((pyStrip arg).data.map Char.toUpper).length = (pyStrip arg).data.length
      exact List.length_map _ _
    have hl2 : (strLower (pyStrip arg)).length = (pyStrip arg).data.length := by
      show ((pyStrip arg).data.map Char.toLower).length = (pyStrip arg).data.length
      exact List.length_map _ _
    have h6 : (strLower (pyStrip arg)).length = 6 := by rw [h]; rfl
    have h5 := candidate_length draws
    rw [heq] at hl1
    rw [h5] at hl1
    rw [hl2] at h6
    rw [← hl1] at h6
    cases h6

/-- Witness for `c10_cancel_normalization` at concrete inputs. -/
theorem c10_cancel_normalization_witness :
    cancel_countdown wState false " ReCeNt " = (.recentRoute, wState)
    ∧ strUpper wEntry.id = wEntry.id
    ∧ cancel_countdown wState true " abcde "
        = cancel_countdown wState true "ABCDE"
    ∧ strUpper (pyStrip "Recent") ≠ candidate (fun _ => (0 : Fin 36)) := by
  refine ⟨?_, ?_, ?_, ?_⟩
  · exact c10_cancel_normalization.1 wState false " ReCeNt " (by decide)
  · exact c10_cancel_normalization.2.1 (to_dict wEntry) wEntry (by decide)
  · exact c10_cancel_normalization.2.2.1 wState true " abcde " "ABCDE" (by decide)
  · exact c10_cancel_normalization.2.2.2 "Recent" (fun _ => (0 : Fin 36)) (by decide)

/-! ## Recovery: `_load_existing_countdowns` (countdown.py lines 142–188)
together with `json_store.load_json` (json_store.py lines 14–23)

The loop parses each stored record (skipping, with a log line, any record
whose parse raises), applies the two fix-ups (travel team-role backfill and
`start_ts` default), sends the completion immediately for already-due
entries, registers the rest in the active map and the task list, rebuilds
interval groups for future-start travel entries, and finally persists the
surviving set once.  Externally visible actions are recorded as events. -/

inductive RecEvent where
  | completion (e : CountdownEntry)
  | persistEv (l : List CountdownEntry)
deriving DecidableEq, Repr

def isPersistEv : RecEvent → Bool
  | .persistEv _ => true
  | .completion _ => false

/-- Travel team-role backfill (countdown.py lines 155–156). -/
def fixTravelRole (e : CountdownEntry) : CountdownEntry :=
  if e.kind = "travel" ∧ e.team_role_id = none ∧ e.ping_role_id ≠ none
  then { e with team_role_id := e.ping_role_id } else e

/-- `start_ts` default (countdown.py lines 158–159). -/
def fixStart (e : CountdownEntry) : CountdownEntry :=
  if e.start_ts = none then { e with start_ts := some e.created_at_ts } else e

def fixEntry (e : CountdownEntry) : CountdownEntry := fixStart (fixTravelRole e)

theorem fixEntry_id (e : CountdownEntry) : (fixEntry e).id = e.id := by
  unfold fixEntry fixStart fixTravelRole
  split <;> split <;> rfl

theorem fixEntry_end (e : CountdownEntry) : (fixEntry e).end_ts = e.end_ts := by
  unfold fixEntry fixStart fixTravelRole
  split <;> split <;> rfl

structure RecAcc where
  events : List RecEvent
  active : List (String × CountdownEntry)
  scheduled : List CountdownEntry
  groups : Groups
deriving DecidableEq, Repr

/-- One iteration of the restore loop. -/
def recStep (now : Int) (acc : RecAcc) (raw : PyDict) : RecAcc :=
  match from_dict raw with
  | none => acc
  | some e0 =>
      if (fixEntry e0).end_ts ≤ now then
        { acc with events := acc.events ++ [.completion (fixEntry e0)] }
      else
        match (fixEntry e0).start_ts, (fixEntry e0).team_role_id with
        | some stv, some r =>
            if (fixEntry e0).kind = "travel" ∧ now < stv then
              { events := acc.events,
                active := dinsert (fixEntry e0).id (fixEntry e0) acc.active,
                scheduled := acc.scheduled ++ [fixEntry e0],
                groups := registerGroup now acc.groups
                  ((fixEntry e0).guild_id, stv, (fixEntry e0).end_ts) r
                  (fixEntry e0).id }
            else
              { acc with
                  active := dinsert (fixEntry e0).id (fixEntry e0) acc.active,
                  scheduled := acc.scheduled ++ [fixEntry e0] }
        | _, _ =>
            { acc with
                active := dinsert (fixEntry e0).id (fixEntry e0) acc.active,
                scheduled := acc.scheduled ++ [fixEntry e0] }

def recoverFold (now : Int) (stored : List PyDict) : RecAcc :=
  stored.foldl (recStep now) ⟨[], [], [], []⟩

/-- `_load_existing_countdowns`: the loop, then the single `_persist` of the
surviving active set. -/
def _load_existing_countdowns (now : Int) (stored : List PyDict) : RecAcc :=
  { recoverFold now stored with
      events := (recoverFold now stored).events
        ++ [.persistEv ((recoverFold now stored).active.map Prod.snd)] }

/-- The state of `countdowns.json` as seen by `load_json`: a missing file
and undecodable JSON both yield the default `[]`. -/
inductive StoreFile where
  | missing
  | corrupt
  | valid (records : List PyDict)

def load_json : StoreFile → List PyDict
  | .missing => []
  | .corrupt => []
  | .valid rs => rs

/-- Round trip: parsing a record the program itself wrote returns the same
entry with its id uppercased. -/
theorem from_dict_to_dict (e : CountdownEntry) :
    from_dict (to_dict e) = some { e with id := strUpper e.id } := by
  obtain ⟨i, g, c, u, ca, st, en, pu, pr, kd, tr⟩ := e
  cases st <;> cases pu <;> cases pr <;> cases tr <;>
    simp [from_dict, to_dict, pyGet, dlookup, reqInt, optInt, pyToInt,
      kindField, pyToStr, optV]

theorem recStep_unparsed (now : Int) (acc : RecAcc) (raw : PyDict)
    (h : from_dict raw = none) : recStep now acc raw = acc := by
  simp [recStep, h]

theorem recStep_parsed_due (now : Int) (acc : RecAcc) (raw : PyDict)
    (e0 : CountdownEntry) (hp : from_dict raw = some e0)
    (hend : (fixEntry e0).end_ts ≤ now) :
    recStep now acc raw
      = { acc with events := acc.events ++ [.completion (fixEntry e0)] } := by
  simp [recStep, hp, hend]

theorem recStep_parsed_pending (now : Int) (acc : RecAcc) (raw : PyDict)
    (e0 : CountdownEntry) (hp : from_dict raw = some e0)
    (hend : ¬ (fixEntry e0).end_ts ≤ now) :
    (recStep now acc raw).events = acc.events
    ∧ (recStep now acc raw).active
        = dinsert (fixEntry e0).id (fixEntry e0) acc.active := by
  simp only [recStep, hp, if_neg hend]
  split
  · split
    · exact ⟨rfl, rfl⟩
    · exact ⟨rfl, rfl⟩
  · exact ⟨rfl, rfl⟩

theorem dinsert_eq_append {κ α : Type} [DecidableEq κ] (k : κ) (v : α)
    (l : List (κ × α)) (h : k ∉ l.map Prod.fst) :
    dinsert k v l = l ++ [(k, v)] := by
  induction l with
  | nil => rfl
  | cons hd tl ih =>
      obtain ⟨k', v'⟩ := hd
      simp only [List.map_cons, List.mem_cons] at h
      push_neg at h
      simp only [dinsert, if_neg (Ne.symm h.1), List.cons_append]
      rw [ih h.2]

theorem recFold_spec (now : Int) :
    ∀ (entries : List CountdownEntry) (acc : RecAcc),
      (∀ e ∈ entries, strUpper e.id = e.id) →
      (∀ e ∈ entries, e.id ∉ acc.active.map Prod.fst) →
      ((entries.map (fun e => e.id)).Nodup) →
      ((entries.map to_dict).foldl (recStep now) acc).events
        = acc.events ++ (entries.filter (fun e => decide (e.end_ts ≤ now))).map
            (fun e => RecEvent.completion (fixEntry e))
      ∧ ((entries.map to_dict).foldl (recStep now) acc).active
        = acc.active ++ (entries.filter (fun e => decide (now < e.end_ts))).map
            (fun e => (e.id, fixEntry e)) := by
  intro entries
  induction entries with
  | nil => intro acc _ _ _; simp
  | cons e rest ih =>
      intro acc hup hdisj hnd
      simp only [List.map_cons, List.nodup_cons] at hnd
      have hupe : strUpper e.id = e.id := hup e (List.mem_cons_self _ _)
      have hfd : from_dict (to_dict e) = some e := by
        rw [from_dict_to_dict, hupe]
      simp only [List.map_cons, List.foldl_cons]
      by_cases hdue : e.end_ts ≤ now
      · have hstep := recStep_parsed_due now acc (to_dict e) e hfd
          (by rw [fixEntry_end]; exact hdue)
        rw [hstep]
        have ihr := ih { acc with events := acc.events ++ [.completion (fixEntry e)] }
          (fun x hx => hup x (List.mem_cons_of_mem _ hx))
          (fun x hx => hdisj x (List.mem_cons_of_mem _ hx)) hnd.2
        rw [List.filter_cons_of_pos (by simpa using hdue),
          List.filter_cons_of_neg (by simpa using hdue)]
        refine ⟨?_, ?_⟩
        · rw [ihr.1]
          simp
        · rw [ihr.2]
      · have hstep := recStep_parsed_pending now acc (to_dict e) e hfd
          (by rw [fixEntry_end]; exact hdue)
        have hact : (recStep now acc (to_dict e)).active
            = acc.active ++ [(e.id, fixEntry e)] := by
          rw [hstep.2, fixEntry_id]
          exact dinsert_eq_append _ _ _ (hdisj e (List.mem_cons_self _ _))
        have hdisj' : ∀ x ∈ rest,
            x.id ∉ (recStep now acc (to_dict e)).active.map Prod.fst := by
          intro x hx
          rw [hact]
          simp only [List.map_append, List.mem_append, List.map_cons,
            List.map_nil, List.mem_cons, List.not_mem_nil]
          push_neg
          refine ⟨hdisj x (List.mem_cons_of_mem _ hx), ?_, fun h => h⟩
          intro hxe
          exact hnd.1 (hxe ▸ List.mem_map_of_mem (fun y => y.id) hx)
        have ihr := ih (recStep now acc (to_dict e))
          (fun x hx => hup x (List.mem_cons_of_mem _ hx)) hdisj' hnd.2
        rw [List.filter_cons_of_neg (by simpa using hdue),
          List.filter_cons_of_pos (by simpa using (by omega : now < e.end_ts))]
        refine ⟨?_, ?_⟩
        · rw [ihr.1, hstep.1]
        · rw [ihr.2, hact]
          simp

theorem count_completion_once :
    ∀ (l : List CountdownEntry) (e : CountdownEntry),
      e ∈ l → (l.map (fun x => x.id)).Nodup →
      (l.map (fun x => RecEvent.completion (fixEntry x))).count
        (RecEvent.completion (fixEntry e)) = 1 := by
  intro l
  induction l with
  | nil => intro e he _; cases he
  | cons x xs ih =>
      intro e he hnd
      simp only [List.map_cons, List.nodup_cons] at hnd
      rcases List.mem_cons.mp he with h | h
      · subst h
        rw [List.map_cons, List.count_cons_self]
        have hnot : RecEvent.completion (fixEntry e)
            ∉ xs.map (fun y => RecEvent.completion (fixEntry y)) := by
          intro hmem
          obtain ⟨y, hy, hyeq⟩ := List.mem_map.mp hmem
          have hfix : fixEntry y = fixEntry e := RecEvent.completion.inj hyeq
          have hid : y.id = e.id := by
            rw [← fixEntry_id y, ← fixEntry_id e, hfix]
          exact hnd.1 (hid ▸ List.mem_map_of_mem (fun z => z.id) hy)
        rw [List.count_eq_zero.mpr hnot]
      · rw [List.map_cons, List.count_cons_of_ne, ih e h hnd.2]
        intro heq
        have hfix : fixEntry e = fixEntry x := RecEvent.completion.inj heq
        have hid : e.id = x.id := by
          rw [← fixEntry_id e, ← fixEntry_id x, hfix]
        exact hnd.1 (hid ▸ List.mem_map_of_mem (fun z => z.id) h)

theorem dlookup_fix_map :
    ∀ (l : List CountdownEntry) (e : CountdownEntry),
      e ∈ l → (l.map (fun x => x.id)).Nodup →
      dlookup e.id (l.map (fun x => (x.id, fixEntry x))) = some (fixEntry e) := by
  intro l
  induction l with
  | nil => intro e he _; cases he
  | cons x xs ih =>
      intro e he hnd
      simp only [List.map_cons, List.nodup_cons] at hnd
      rcases List.mem_cons.mp he with h | h
      · subst h
        simp [dlookup]
      · have hne : x.id ≠ e.id := by
          intro hxe
          exact hnd.1 (hxe ▸ List.mem_map_of_mem (fun z => z.id) h)
        simp only [List.map_cons, dlookup, if_neg hne]
        exact ih e h hnd.2

/-- **C2**. Recovery partitions the stored entries against the clock: every
stored entry whose `end_ts` is at or before `now` gets its completion
notification exactly once and is absent from the recovered active map;
every entry with `end_ts` after `now` is re-registered in the active map
(with its fix-ups applied); and the surviving set is persisted exactly once
(the events contain exactly one persist, whose payload is the surviving
active set).  The hypotheses — uppercase ids and pairwise-distinct ids —
are the invariants the program's own store always satisfies (ids are drawn
uppercase from `ID_CHARSET` and the store is a dump of an id-keyed map). -/
theorem c2_recovery_partition :
    ∀ (now : Int) (entries : List CountdownEntry),
      (∀ e ∈ entries, strUpper e.id = e.id) →
      ((entries.map (fun e => e.id)).Nodup) →
      (∀ e ∈ entries, e.end_ts ≤ now →
        (_load_existing_countdowns now (entries.map to_dict)).events.count
            (.completion (fixEntry e)) = 1
        ∧ dlookup e.id
            (_load_existing_countdowns now (entries.map to_dict)).active = none)
      ∧ (∀ e ∈ entries, now < e.end_ts →
          dlookup e.id
            (_load_existing_countdowns now (entries.map to_dict)).active
            = some (fixEntry e))
      ∧ (_load_existing_countdowns now (entries.map to_dict)).events.filter
            isPersistEv
          = [.persistEv
              ((_load_existing_countdowns now
                (entries.map to_dict)).active.map Prod.snd)] := by
  intro now entries hup hnd
  have hspec := recFold_spec now entries ⟨[], [], [], []⟩ hup (by simp) hnd
  have hev : (recoverFold now (entries.map to_dict)).events
      = (entries.filter (fun e => decide (e.end_ts ≤ now))).map
          (fun e => RecEvent.completion (fixEntry e)) := by
    have := hspec.1
    simpa [recoverFold] using this
  have hac : (recoverFold now (entries.map to_dict)).active
      = (entries.filter (fun e => decide (now < e.end_ts))).map
          (fun e => (e.id, fixEntry e)) := by
    have := hspec.2
    simpa [recoverFold] using this
  have hload_ev : (_load_existing_countdowns now (entries.map to_dict)).events
      = (entries.filter (fun e => decide (e.end_ts ≤ now))).map
          (fun e => RecEvent.completion (fixEntry e))
        ++ [.persistEv ((recoverFold now (entries.map to_dict)).active.map
              Prod.snd)] := by
    show (recoverFold now (entries.map to_dict)).events
        ++ [.persistEv _] = _
    rw [hev]
  have hload_ac : (_load_existing_countdowns now (entries.map to_dict)).active
      = (entries.filter (fun e => decide (now < e.end_ts))).map
          (fun e => (e.id, fixEntry e)) := by
    show (recoverFold now (entries.map to_dict)).active = _
    exact hac
  have hinj := List.inj_on_of_nodup_map hnd
  refine ⟨?_, ?_, ?_⟩
  · intro e he hdue
    constructor
    · rw [hload_ev, List.count_append]
      have hfil_nd : ((entries.filter
          (fun e => decide (e.end_ts ≤ now))).map (fun x => x.id)).Nodup := by
        have hsub := List.filter_sublist
          (l := entries) (p := fun e => decide (e.end_ts ≤ now))
        exact (hsub.map (fun x => x.id)).nodup hnd
      have hmem : e ∈ entries.filter (fun e => decide (e.end_ts ≤ now)) :=
        List.mem_filter.mpr ⟨he, by simpa using hdue⟩
      rw [count_completion_once _ e hmem hfil_nd]
      have : RecEvent.completion (fixEntry e)
          ∉ [RecEvent.persistEv
              ((recoverFold now (entries.map to_dict)).active.map Prod.snd)] := by
        simp
      rw [List.count_eq_zero.mpr this]
    · rw [hload_ac]
      apply dlookup_eq_none_of_not_mem_keys
      intro hmemk
      simp only [List.map_map] at hmemk
      obtain ⟨y, hy, hyeq⟩ := List.mem_map.mp hmemk
      have hyfil := List.mem_filter.mp hy
      have hyd : y.id = e.id := hyeq
      have : y = e := hinj hyfil.1 he hyd
      subst this
      have : now < y.end_ts := by simpa using hyfil.2
      omega
  · intro e he hpend
    rw [hload_ac]
    exact dlookup_fix_map _ e
      (List.mem_filter.mpr ⟨he, by simpa using hpend⟩)
      (by
        have hsub := List.filter_sublist
          (l := entries) (p := fun e => decide (now < e.end_ts))
        exact (hsub.map (fun x => x.id)).nodup hnd)
  · rw [hload_ev, List.filter_append]
    have h1 : ((entries.filter (fun e => decide (e.end_ts ≤ now))).map
        (fun e => RecEvent.completion (fixEntry e))).filter isPersistEv = [] := by
      apply List.filter_eq_nil_iff.mpr
      intro a ha
      obtain ⟨y, -, hyeq⟩ := List.mem_map.mp ha
      rw [← hyeq]
      simp [isPersistEv]
    rw [h1]
    rw [hload_ac, ← hac]
    rfl

/-- Already-due entry for the recovery witness. -/
def wDue : CountdownEntry :=
  ⟨"AAAAA", 1, 2, 3, 0, some 0, 5, none, none, "countdown", none⟩

/-- Still-pending entry for the recovery witness. -/
def wPend : CountdownEntry :=
  ⟨"BBBBB", 1, 2, 3, 0, some 0, 50, none, none, "countdown", none⟩

/-- Witness for `c2_recovery_partition` on a concrete two-entry store at
`now = 10`. -/
theorem c2_recovery_partition_witness :
    (_load_existing_countdowns 10 ([wDue, wPend].map to_dict)).events.count
        (.completion (fixEntry wDue)) = 1
    ∧ dlookup wDue.id
        (_load_existing_countdowns 10 ([wDue, wPend].map to_dict)).active = none
    ∧ dlookup wPend.id
        (_load_existing_countdowns 10 ([wDue, wPend].map to_dict)).active
        = some (fixEntry wPend)
    ∧ (_load_existing_countdowns 10 ([wDue, wPend].map to_dict)).events.filter
          isPersistEv
        = [.persistEv
            ((_load_existing_countdowns 10
              ([wDue, wPend].map to_dict)).active.map Prod.snd)] := by
  have h := c2_recovery_partition 10 [wDue, wPend] (by decide) (by decide)
  have hdue := h.1 wDue (by decide) (by decide)
  have hpend := h.2.1 wPend (by decide) (by decide)
  exact ⟨hdue.1, hdue.2, hpend, h.2.2⟩

theorem mem_of_mem_dinsert {κ α : Type} [DecidableEq κ] {p : κ × α} {k : κ}
    {v : α} : ∀ {l : List (κ × α)}, p ∈ dinsert k v l → p = (k, v) ∨ p ∈ l := by
  intro l
  induction l with
  | nil => intro h; simpa [dinsert] using h
  | cons hd tl ih =>
      obtain ⟨k', v'⟩ := hd
      intro h
      by_cases hk : k' = k
      · rw [dinsert, if_pos hk] at h
        rcases List.mem_cons.mp h with h' | h'
        · exact Or.inl h'
        · exact Or.inr (List.mem_cons_of_mem _ h')
      · rw [dinsert, if_neg hk] at h
        rcases List.mem_cons.mp h with h' | h'
        · exact Or.inr (h' ▸ List.mem_cons_self _ _)
        · rcases ih h' with h'' | h''
          · exact Or.inl h''
          · exact Or.inr (List.mem_cons_of_mem _ h'')

theorem recFold_active_source (now : Int) :
    ∀ (stored : List PyDict) (acc : RecAcc) (p : String × CountdownEntry),
      p ∈ (stored.foldl (recStep now) acc).active →
      p ∈ acc.active
      ∨ ∃ raw ∈ stored, ∃ e0, from_dict raw = some e0
          ∧ p = ((fixEntry e0).id, fixEntry e0)
          ∧ ¬ (fixEntry e0).end_ts ≤ now := by
  intro stored
  induction stored with
  | nil => intro acc p h; exact Or.inl h
  | cons raw rest ih =>
      intro acc p h
      rw [List.foldl_cons] at h
      rcases ih (recStep now acc raw) p h with h' | h'
      · cases hfd : from_dict raw with
        | none =>
            rw [recStep_unparsed now acc raw hfd] at h'
            exact Or.inl h'
        | some e0 =>
            by_cases hend : (fixEntry e0).end_ts ≤ now
            · rw [recStep_parsed_due now acc raw e0 hfd hend] at h'
              exact Or.inl h'
            · rw [(recStep_parsed_pending now acc raw e0 hfd hend).2] at h'
              rcases mem_of_mem_dinsert h' with h'' | h''
              · exact Or.inr ⟨raw, List.mem_cons_self _ _, e0, hfd, h'', hend⟩
              · exact Or.inl h''
      · obtain ⟨raw', hraw', rest'⟩ := h'
        exact Or.inr ⟨raw', List.mem_cons_of_mem _ hraw', rest'⟩

/-- **C9**. Recovery never fails on malformed persisted data: a missing or
undecodable store file is treated as the empty collection; a stored record
that `from_dict` cannot parse is skipped, leaving recovery exactly as if
the record were absent (and hence dropped by the single rewrite that
follows); and every entry in the persisted surviving set comes from a
record that parsed successfully and is still pending. -/
theorem c9_malformed_data :
    (∀ now : Int,
        _load_existing_countdowns now (load_json .missing)
          = _load_existing_countdowns now []
        ∧ _load_existing_countdowns now (load_json .corrupt)
          = _load_existing_countdowns now [])
    ∧ (∀ (now : Int) (rs1 rs2 : List PyDict) (bad : PyDict),
        from_dict bad = none →
        _load_existing_countdowns now (rs1 ++ bad :: rs2)
          = _load_existing_countdowns now (rs1 ++ rs2))
    ∧ (∀ (now : Int) (stored : List PyDict) (e : CountdownEntry),
        e ∈ (_load_existing_countdowns now stored).active.map Prod.snd →
        (∃ raw ∈ stored, ∃ e0, from_dict raw = some e0 ∧ e = fixEntry e0)
        ∧ now < e.end_ts) := by
  refine ⟨?_, ?_, ?_⟩
  · intro now
    exact ⟨rfl, rfl⟩
  · intro now rs1 rs2 bad hbad
    unfold _load_existing_countdowns recoverFold
    rw [List.foldl_append, List.foldl_append, List.foldl_cons,
      recStep_unparsed now _ bad hbad]
  · intro now stored e he
    have he' : e ∈ (recoverFold now stored).active.map Prod.snd := he
    obtain ⟨p, hp, hpe⟩ := List.mem_map.mp he'
    rcases recFold_active_source now stored ⟨[], [], [], []⟩ p hp with h | h
    · simp at h
    · obtain ⟨raw, hraw, e0, hfd, hpeq, hpend⟩ := h
      have hesnd : e = fixEntry e0 := by
        rw [← hpe, hpeq]
      refine ⟨⟨raw, hraw, e0, hfd, hesnd⟩, ?_⟩
      rw [hesnd, fixEntry_end]
      rw [fixEntry_end] at hpend
      omega

/-- Witness for `c9_malformed_data` at concrete inputs: an empty dict does
not parse and is dropped; a pending entry survives with a pending deadline. -/
theorem c9_malformed_data_witness :
    _load_existing_countdowns 0 ([] ++ ([] : PyDict) :: [])
      = _load_existing_countdowns 0 ([] ++ [])
    ∧ 10 < (fixEntry wPend).end_ts := by
  constructor
  · exact c9_malformed_data.2.1 0 [] [] [] (by decide)
  · have := (c9_malformed_data.2.2 10 [to_dict wPend] (fixEntry wPend)
      (by decide)).2
    rwa [fixEntry_end] at this

/-! ## C8: the coordination-space state machine (`_ensure_interval_thread`,
countdown.py lines 293–343)

The `thread_id` slot of a group holds `None` (`unset`), the sentinel
`"pending"`, or a created thread id.  The lock-protected first section of
`_ensure_interval_thread` is `ensurePhase1`; the post-creation sections are
the `create*` steps of `GStep`.  A creator that has set `"pending"` and has
not yet resolved is counted in `inFlight`; `creations` counts coordination
spaces successfully created and recorded while the current group record
exists (reset when a fresh record is created at the key).  `GStep` also
covers the group mutations performed elsewhere: `join` (registration of a
sibling entry) and `leave` (`_cleanup_interval_group`), including the pop of
the record when its last entry leaves — which the source performs without
checking for an in-flight creator. -/

inductive EnsureDecision where
  | already (i : Nat)
  | tooFew
  | pendingBusy
  | proceed
deriving DecidableEq, Repr

/-- The first lock-protected section of `_ensure_interval_thread`
(countdown.py lines 297–308): return an existing thread id; bail out when
fewer than two distinct team roles are present or a creation is pending;
otherwise claim the `"pending"` sentinel. -/
def ensurePhase1 (g : IGroup) : IGroup × EnsureDecision :=
  match g.thread_id with
  | .created i => (g, .already i)
  | .pending =>
      if g.team_role_ids.length < 2 then (g, .tooFew) else (g, .pendingBusy)
  | .unset =>
      if g.team_role_ids.length < 2 then (g, .tooFew)
      else ({ g with thread_id := .pending }, .proceed)

structure GroupSys where
  group : Option IGroup
  inFlight : Nat
  creations : Nat
deriving DecidableEq, Repr

/-- All operations of the source that touch one key's group record and its
`thread_id` slot. -/
inductive GStep : GroupSys → GroupSys → Prop where
  | registerFresh (now : Int) (rid : Int) (eid : String) (f c : Nat) :
      GStep (GroupSys.mk none f c)
        (GroupSys.mk (some (groupJoin (emptyGroup now) rid eid)) f 0)
  | registerJoin (g : IGroup) (rid : Int) (eid : String) (f c : Nat) :
      GStep (GroupSys.mk (some g) f c)
        (GroupSys.mk (some (groupJoin g rid eid)) f c)
  | ensureSkip (g g' : IGroup) (d : EnsureDecision) (f c : Nat) :
      ensurePhase1 g = (g', d) → d ≠ .proceed →
      GStep (GroupSys.mk (some g) f c) (GroupSys.mk (some g') f c)
  | ensureAcquire (g g' : IGroup) (f c : Nat) :
      ensurePhase1 g = (g', .proceed) →
      GStep (GroupSys.mk (some g) f c) (GroupSys.mk (some g') (f + 1) c)
  | createFailHit (g : IGroup) (f c : Nat) :
      GStep (GroupSys.mk (some g) (f + 1) c)
        (GroupSys.mk (some { g with thread_id := .unset }) f c)
  | createFailMiss (f c : Nat) :
      GStep (GroupSys.mk none (f + 1) c) (GroupSys.mk none f c)
  | createOkHit (g : IGroup) (i : Nat) (f c : Nat) :
      GStep (GroupSys.mk (some g) (f + 1) c)
        (GroupSys.mk (some { g with thread_id := .created i }) f (c + 1))
  | createOkMiss (i : Nat) (f c : Nat) :
      GStep (GroupSys.mk none (f + 1) c) (GroupSys.mk none f c)
  | createAbort (os : Option IGroup) (f c : Nat) :
      GStep (GroupSys.mk os (f + 1) c) (GroupSys.mk os f c)
  | leaveSome (g : IGroup) (eid : String) (f c : Nat) :
      g.entry_ids.erase eid ≠ [] →
      GStep (GroupSys.mk (some g) f c)
        (GroupSys.mk (some (groupErase g eid)) f c)
  | leaveLast (g : IGroup) (eid : String) (f c : Nat) :
      g.entry_ids.erase eid = [] →
      GStep (GroupSys.mk (some g) f c) (GroupSys.mk none f c)

def initSys : GroupSys := GroupSys.mk none 0 0

/-- A step that never deletes the group record while a creation is in
flight (the amendment's restriction). -/
def PopSafe (s s' : GroupSys) : Prop :=
  GStep s s' ∧ (s.group ≠ none ∧ s'.group = none → s.inFlight = 0)

/-- The inductive invariant of safe traces. -/
def SysInv (s : GroupSys) : Prop :=
  match s.group with
  | none => s.inFlight = 0 ∧ s.creations ≤ 1
  | some g =>
      g.team_role_ids.Nodup
      ∧ (g.thread_id = .unset → s.inFlight = 0 ∧ s.creations = 0)
      ∧ (g.thread_id = .pending →
          s.inFlight ≤ 1 ∧ s.creations = 0 ∧ 2 ≤ g.team_role_ids.length)
      ∧ (∀ i, g.thread_id = .created i → s.inFlight = 0 ∧ s.creations = 1)

theorem setAdd_nodup {α : Type} [DecidableEq α] (x : α) (l : List α)
    (h : l.Nodup) : (setAdd x l).Nodup := by
  unfold setAdd
  split
  · exact h
  · rename_i hmem
    refine List.Nodup.append h (List.nodup_singleton x) ?_
    intro a ha hax
    rw [List.mem_singleton.mp hax] at ha
    exact hmem ha

theorem setAdd_length_le {α : Type} [DecidableEq α] (x : α) (l : List α) :
    l.length ≤ (setAdd x l).length := by
  unfold setAdd
  split
  · exact le_rfl
  · simp

theorem ensurePhase1_proceed {g g' : IGroup}
    (h : ensurePhase1 g = (g', .proceed)) :
    g.thread_id = .unset ∧ 2 ≤ g.team_role_ids.length
    ∧ g' = { g with thread_id := .pending } := by
  obtain ⟨tr, ei, th, mi, ca⟩ := g
  cases th with
  | created i => simp [ensurePhase1] at h
  | pending =>
      by_cases hlen : tr.length < 2 <;> simp [ensurePhase1, hlen] at h
  | unset =>
      by_cases hlen : tr.length < 2
      · simp [ensurePhase1, hlen] at h
      · simp only [ensurePhase1, if_neg hlen, Prod.mk.injEq] at h
        refine ⟨rfl, by simpa using hlen, h.1.symm⟩

theorem ensurePhase1_skip {g g' : IGroup} {d : EnsureDecision}
    (h : ensurePhase1 g = (g', d)) (hd : d ≠ .proceed) : g' = g := by
  obtain ⟨tr, ei, th, mi, ca⟩ := g
  cases th with
  | created i =>
      simp only [ensurePhase1, Prod.mk.injEq] at h
      exact h.1.symm
  | pending =>
      by_cases hlen : tr.length < 2 <;>
        simp only [ensurePhase1, if_pos, if_neg, hlen, reduceIte,
          Prod.mk.injEq] at h <;>
        exact h.1.symm
  | unset =>
      by_cases hlen : tr.length < 2
      · simp only [ensurePhase1, hlen, reduceIte, Prod.mk.injEq] at h
        exact h.1.symm
      · simp only [ensurePhase1, hlen, reduceIte, Prod.mk.injEq] at h
        exact absurd h.2 (fun he => hd he.symm)

theorem sysInv_init : SysInv initSys := by
  simp [SysInv, initSys]

theorem sysInv_step {s s' : GroupSys} (hinv : SysInv s)
    (hstep : PopSafe s s') : SysInv s' := by
  obtain ⟨hg, hpop⟩ := hstep
  cases hg with
  | registerFresh now rid eid f c =>
      simp only [SysInv] at hinv
      obtain ⟨hf, -⟩ := hinv
      subst hf
      simp only [SysInv]
      refine ⟨?_, ?_, ?_, ?_⟩
      · simp [groupJoin, emptyGroup, setAdd]
      · intro _; constructor <;> trivial
      · intro hth; simp [groupJoin, emptyGroup] at hth
      · intro i hth; simp [groupJoin, emptyGroup] at hth
  | registerJoin g rid eid f c =>
      simp only [SysInv] at hinv ⊢
      obtain ⟨hnd, hu, hp, hc⟩ := hinv
      have hth : (groupJoin g rid eid).thread_id = g.thread_id := rfl
      refine ⟨setAdd_nodup _ _ hnd, ?_, ?_, ?_⟩
      · intro h; exact hu (by rwa [hth] at h)
      · intro h
        obtain ⟨h1, h2, h3⟩ := hp (by rwa [hth] at h)
        exact ⟨h1, h2, le_trans h3 (setAdd_length_le _ _)⟩
      · intro i h; exact hc i (by rwa [hth] at h)
  | ensureSkip g g' d f c hd1 hd2 =>
      have heq := ensurePhase1_skip hd1 hd2
      subst heq
      exact hinv
  | ensureAcquire g g' f c hp1 =>
      obtain ⟨hth, hlen, hg'⟩ := ensurePhase1_proceed hp1
      subst hg'
      simp only [SysInv] at hinv ⊢
      obtain ⟨hnd, hu, -, -⟩ := hinv
      obtain ⟨hf, hc⟩ := hu hth
      subst hf
      subst hc
      refine ⟨hnd, ?_, ?_, ?_⟩
      · intro h; simp at h
      · intro _; exact ⟨by omega, rfl, hlen⟩
      · intro i h; simp at h
  | createFailHit g f c =>
      obtain ⟨tr, ei, th, mi, ca⟩ := g
      simp only [SysInv] at hinv ⊢
      obtain ⟨hnd, hu, hp, hc⟩ := hinv
      cases th with
      | unset => exact absurd (hu rfl).1 (by omega)
      | created i => exact absurd (hc i rfl).1 (by omega)
      | pending =>
          obtain ⟨h1, h2, -⟩ := hp rfl
          have hf : f = 0 := by omega
          subst hf
          subst h2
          refine ⟨hnd, ?_, ?_, ?_⟩
          · intro _; constructor <;> trivial
          · intro h; simp at h
          · intro i h; simp at h
  | createOkHit g i f c =>
      obtain ⟨tr, ei, th, mi, ca⟩ := g
      simp only [SysInv] at hinv ⊢
      obtain ⟨hnd, hu, hp, hc⟩ := hinv
      cases th with
      | unset => exact absurd (hu rfl).1 (by omega)
      | created j => exact absurd (hc j rfl).1 (by omega)
      | pending =>
          obtain ⟨h1, h2, -⟩ := hp rfl
          have hf : f = 0 := by omega
          subst hf
          subst h2
          refine ⟨hnd, ?_, ?_, ?_⟩
          · intro h; simp at h
          · intro h; simp at h
          · intro j hj; constructor <;> trivial
  | createFailMiss f c =>
      simp only [SysInv] at hinv
      exact absurd hinv.1 (by omega)
  | createOkMiss i f c =>
      simp only [SysInv] at hinv
      exact absurd hinv.1 (by omega)
  | createAbort os f c =>
      cases os with
      | none =>
          simp only [SysInv] at hinv
          exact absurd hinv.1 (by omega)
      | some g =>
          obtain ⟨tr, ei, th, mi, ca⟩ := g
          simp only [SysInv] at hinv ⊢
          obtain ⟨hnd, hu, hp, hc⟩ := hinv
          cases th with
          | unset => exact absurd (hu rfl).1 (by omega)
          | created i => exact absurd (hc i rfl).1 (by omega)
          | pending =>
              obtain ⟨h1, h2, h3⟩ := hp rfl
              refine ⟨hnd, ?_, ?_, ?_⟩
              · intro h; cases h
              · intro _; exact ⟨by omega, h2, h3⟩
              · intro i h; cases h
  | leaveSome g eid f c hne =>
      simp only [SysInv] at hinv ⊢
      exact hinv
  | leaveLast g eid f c hlast =>
      have hf : f = 0 := hpop ⟨by simp, rfl⟩
      subst hf
      obtain ⟨tr, ei, th, mi, ca⟩ := g
      simp only [SysInv] at hinv ⊢
      obtain ⟨hnd, hu, hp, hc⟩ := hinv
      refine ⟨by trivial, ?_⟩
      cases th with
      | unset => have := (hu rfl).2; omega
      | pending => have := (hp rfl).2.1; omega
      | created i => have := (hc i rfl).2; omega

theorem sysInv_reach {s : GroupSys}
    (h : Relation.ReflTransGen PopSafe initSys s) : SysInv s := by
  induction h with
  | refl => exact sysInv_init
  | tail hsteps hstep ih => exact sysInv_step ih hstep

/-- **C8** (amended).  Along any trace of group operations in which the
group record is never deleted while a space creation is in flight
(`PopSafe`), the coordination-space slot behaves as specified: at most one
space is ever created and recorded for the group record and at most one
creator is ever in flight; a step never moves the slot out of
`created i` while the record survives; `unset` moves only to `unset` or —
when the group holds at least two distinct parties and no creator is in
flight — to `pending`, taken by exactly one caller; and `pending` moves
only to `pending`, `unset` (creation failure) or `created`. -/
theorem c8_space_state_machine :
    (∀ s : GroupSys, Relation.ReflTransGen PopSafe initSys s →
        s.creations ≤ 1 ∧ s.inFlight ≤ 1)
    ∧ (∀ s s' : GroupSys, Relation.ReflTransGen PopSafe initSys s →
        PopSafe s s' →
        ∀ g g', s.group = some g → s'.group = some g' →
          (∀ i, g.thread_id = .created i → g'.thread_id = .created i)
          ∧ (g.thread_id = .unset →
              g'.thread_id = .unset
              ∨ (g'.thread_id = .pending ∧ 2 ≤ g.team_role_ids.length
                  ∧ g.team_role_ids.Nodup ∧ s.inFlight = 0
                  ∧ s'.inFlight = 1))
          ∧ (g.thread_id = .pending →
              g'.thread_id = .pending ∨ g'.thread_id = .unset
              ∨ ∃ i, g'.thread_id = .created i)) := by
  constructor
  · intro s hreach
    have hinv := sysInv_reach hreach
    obtain ⟨og, f, c⟩ := s
    show c ≤ 1 ∧ f ≤ 1
    cases og with
    | none =>
        simp only [SysInv] at hinv
        exact ⟨hinv.2, by omega⟩
    | some g =>
        obtain ⟨tr, ei, th, mi, ca⟩ := g
        simp only [SysInv] at hinv
        obtain ⟨-, hu, hp, hc⟩ := hinv
        cases th with
        | unset => obtain ⟨h1, h2⟩ := hu rfl; exact ⟨by omega, by omega⟩
        | pending => obtain ⟨h1, h2, -⟩ := hp rfl; exact ⟨by omega, h1⟩
        | created i => obtain ⟨h1, h2⟩ := hc i rfl; exact ⟨by omega, by omega⟩
  · intro s s' hreach hstep g g' hsg hsg'
    have hinv := sysInv_reach hreach
    obtain ⟨hgs, hpop⟩ := hstep
    cases hgs with
    | registerFresh now rid eid f c => cases hsg
    | registerJoin g0 rid eid f c =>
        cases hsg
        cases hsg'
        refine ⟨?_, ?_, ?_⟩
        · intro i h; exact h
        · intro h; exact Or.inl h
        · intro h; exact Or.inl h
    | ensureSkip g0 g1 d f c hd1 hd2 =>
        have heq := ensurePhase1_skip hd1 hd2
        subst heq
        cases hsg
        cases hsg'
        refine ⟨?_, ?_, ?_⟩
        · intro i h; exact h
        · intro h; exact Or.inl h
        · intro h; exact Or.inl h
    | ensureAcquire g0 g1 f c hp1 =>
        obtain ⟨hth, hlen, hg1⟩ := ensurePhase1_proceed hp1
        subst hg1
        cases hsg
        cases hsg'
        simp only [SysInv] at hinv
        obtain ⟨hnd, hu, -, -⟩ := hinv
        obtain ⟨hf, -⟩ := hu hth
        refine ⟨?_, ?_, ?_⟩
        · intro i h; rw [h] at hth; cases hth
        · intro _
          exact Or.inr ⟨rfl, hlen, hnd, hf, by simpa using hf⟩
        · intro h; rw [h] at hth; cases hth
    | createFailHit g0 f c =>
        obtain ⟨tr, ei, th, mi, ca⟩ := g0
        cases hsg
        cases hsg' 
        simp only [SysInv] at hinv
        obtain ⟨-, hu, hp, hc⟩ := hinv
        cases th with
        | unset => exact absurd (hu rfl).1 (by omega)
        | created i => exact absurd (hc i rfl).1 (by omega)
        | pending =>
            refine ⟨?_, ?_, ?_⟩
            · intro i h; cases h
            · intro h; cases h
            · intro _; exact Or.inr (Or.inl rfl)
    | createOkHit g0 i f c =>
        obtain ⟨tr, ei, th, mi, ca⟩ := g0
        cases hsg
        cases hsg' 
        simp only [SysInv] at hinv
        obtain ⟨-, hu, hp, hc⟩ := hinv
        cases th with
        | unset => exact absurd (hu rfl).1 (by omega)
        | created j => exact absurd (hc j rfl).1 (by omega)
        | pending =>
            refine ⟨?_, ?_, ?_⟩
            · intro j h; cases h
            · intro h; cases h
            · intro _; exact Or.inr (Or.inr ⟨i, rfl⟩)
    | createFailMiss f c => cases hsg
    | createOkMiss i f c => cases hsg
    | createAbort os f c =>
        cases os with
        | none => cases hsg
        | some g0 =>
            cases hsg
            cases hsg'
            refine ⟨?_, ?_, ?_⟩
            · intro i h; exact h
            · intro h; exact Or.inl h
            · intro h; exact Or.inl h
    | leaveSome g0 eid f c hne =>
        cases hsg
        cases hsg'
        refine ⟨?_, ?_, ?_⟩
        · intro i h; exact h
        · intro h; exact Or.inl h
        · intro h; exact Or.inl h
    | leaveLast g0 eid f c hlast => cases hsg'

/-- Witness for `c8_space_state_machine`: the bound at the initial state,
and the unset-transition conjunct across a concrete safe `registerJoin`
step reached by a concrete safe `registerFresh` step. -/
theorem c8_space_state_machine_witness :
    (initSys.creations ≤ 1 ∧ initSys.inFlight ≤ 1)
    ∧ ((groupJoin (groupJoin (emptyGroup 0) 1 "E1") 2 "E2").thread_id
          = SpaceState.unset
        ∨ ((groupJoin (groupJoin (emptyGroup 0) 1 "E1") 2 "E2").thread_id
              = SpaceState.pending
            ∧ 2 ≤ (groupJoin (emptyGroup 0) 1 "E1").team_role_ids.length
            ∧ (groupJoin (emptyGroup 0) 1 "E1").team_role_ids.Nodup
            ∧ (GroupSys.mk (some (groupJoin (emptyGroup 0) 1 "E1")) 0 0).inFlight
                = 0
            ∧ (GroupSys.mk
                (some (groupJoin (groupJoin (emptyGroup 0) 1 "E1") 2 "E2"))
                0 0).inFlight = 1)) := by
  constructor
  · exact c8_space_state_machine.1 initSys Relation.ReflTransGen.refl
  · have hreach : Relation.ReflTransGen PopSafe initSys
        (GroupSys.mk (some (groupJoin (emptyGroup 0) 1 "E1")) 0 0) :=
      Relation.ReflTransGen.single
        ⟨GStep.registerFresh 0 1 "E1" 0 0, fun h => rfl⟩
    have hstep : PopSafe
        (GroupSys.mk (some (groupJoin (emptyGroup 0) 1 "E1")) 0 0)
        (GroupSys.mk
          (some (groupJoin (groupJoin (emptyGroup 0) 1 "E1") 2 "E2")) 0 0) :=
      ⟨GStep.registerJoin _ 2 "E2" 0 0, fun h => absurd h.2 (by simp)⟩
    exact (c8_space_state_machine.2 _ _ hreach hstep _ _ rfl rfl).2.1 rfl

/-- **C8** counterexample for the claim as stated (over the unrestricted
step relation of the source, which pops a group record in
`_cleanup_interval_group` without checking for an in-flight creation): a
reachable trace in which the key's record is deleted while a creator is in
flight and re-created, after which the record's state is overwritten from
`Created 7` to `Created 8` — the state leaves `Created` once reached, and
two coordination spaces are created and recorded for one group record. -/
theorem c8_counterexample :
    Relation.ReflTransGen GStep (GroupSys.mk none 0 0)
      (GroupSys.mk (some (IGroup.mk [1, 2] ["E3", "E4"] (.created 7) [] 0)) 1 1)
    ∧ GStep
        (GroupSys.mk (some (IGroup.mk [1, 2] ["E3", "E4"] (.created 7) [] 0)) 1 1)
        (GroupSys.mk (some (IGroup.mk [1, 2] ["E3", "E4"] (.created 8) [] 0)) 0 2) := by
  constructor
  · have s1 : GStep (GroupSys.mk none 0 0)
        (GroupSys.mk (some (IGroup.mk [1] ["E1"] .unset [] 0)) 0 0) := by
      have h := GStep.registerFresh 0 1 "E1" 0 0
      simpa [groupJoin, emptyGroup, setAdd] using h
    have s2 : GStep
        (GroupSys.mk (some (IGroup.mk [1] ["E1"] .unset [] 0)) 0 0)
        (GroupSys.mk (some (IGroup.mk [1, 2] ["E1", "E2"] .unset [] 0)) 0 0) := by
      have h := GStep.registerJoin (IGroup.mk [1] ["E1"] .unset [] 0) 2 "E2" 0 0
      simpa [groupJoin, setAdd] using h
    have s3 : GStep
        (GroupSys.mk (some (IGroup.mk [1, 2] ["E1", "E2"] .unset [] 0)) 0 0)
        (GroupSys.mk (some (IGroup.mk [1, 2] ["E1", "E2"] .pending [] 0)) 1 0) :=
      GStep.ensureAcquire _ _ 0 0 (by decide)
    have s4 : GStep
        (GroupSys.mk (some (IGroup.mk [1, 2] ["E1", "E2"] .pending [] 0)) 1 0)
        (GroupSys.mk (some (IGroup.mk [1, 2] ["E2"] .pending [] 0)) 1 0) := by
      have h := GStep.leaveSome (IGroup.mk [1, 2] ["E1", "E2"] .pending [] 0)
        "E1" 1 0 (by decide)
      simpa [groupErase] using h
    have s5 : GStep
        (GroupSys.mk (some (IGroup.mk [1, 2] ["E2"] .pending [] 0)) 1 0)
        (GroupSys.mk none 1 0) :=
      GStep.leaveLast _ "E2" 1 0 (by decide)
    have s6 : GStep (GroupSys.mk none 1 0)
        (GroupSys.mk (some (IGroup.mk [1] ["E3"] .unset [] 0)) 1 0) := by
      have h := GStep.registerFresh 0 1 "E3" 1 0
      simpa [groupJoin, emptyGroup, setAdd] using h
    have s7 : GStep
        (GroupSys.mk (some (IGroup.mk [1] ["E3"] .unset [] 0)) 1 0)
        (GroupSys.mk (some (IGroup.mk [1, 2] ["E3", "E4"] .unset [] 0)) 1 0) := by
      have h := GStep.registerJoin (IGroup.mk [1] ["E3"] .unset [] 0) 2 "E4" 1 0
      simpa [groupJoin, setAdd] using h
    have s8 : GStep
        (GroupSys.mk (some (IGroup.mk [1, 2] ["E3", "E4"] .unset [] 0)) 1 0)
        (GroupSys.mk (some (IGroup.mk [1, 2] ["E3", "E4"] .pending [] 0)) 2 0) :=
      GStep.ensureAcquire _ _ 1 0 (by decide)
    have s9 : GStep
        (GroupSys.mk (some (IGroup.mk [1, 2] ["E3", "E4"] .pending [] 0)) 2 0)
        (GroupSys.mk (some (IGroup.mk [1, 2] ["E3", "E4"] (.created 7) [] 0)) 1 1) :=
      GStep.createOkHit _ 7 1 0
    exact Relation.ReflTransGen.head s1
      (Relation.ReflTransGen.head s2
        (Relation.ReflTransGen.head s3
          (Relation.ReflTransGen.head s4
            (Relation.ReflTransGen.head s5
              (Relation.ReflTransGen.head s6
                (Relation.ReflTransGen.head s7
                  (Relation.ReflTransGen.head s8
                    (Relation.ReflTransGen.single s9))))))))
  · exact GStep.createOkHit _ 8 0 1

end Celeste
